import Mathlib

/-!
Verification development for the `go-aospapn` repository (package `apnxml`).

The Go source is shallowly embedded: machine integers become `Int`/`Nat`
(all bitmask values in the source are non-negative), Go strings become
`String` manipulated through executable helpers over their character
lists, `nil` pointers become `Option`, Go maps become association lists,
and fallible decode paths return `Except`.
-/

/-! ## Go string primitives (byte/rune-level helpers used by the source) -/

/-- Model of Go `len(s)` on strings: the UTF-8 byte length. -/
def goLen (s : String) : Nat :=
  s.utf8ByteSize

/-- ASCII whitespace test, modelling `unicode.IsSpace` on the ASCII range
(the only characters the APN tables and carrier strings use). -/
def goIsSpace (c : Char) : Bool :=
  c == ' ' || c == '\t' || c == '\n' || c == '\r'

/-- Model of Go `strings.TrimSpace`. -/
def goTrimSpace (s : String) : String :=
  ⟨((s.data.dropWhile goIsSpace).reverse.dropWhile goIsSpace).reverse⟩

/-- ASCII lower-casing of one character, modelling `strings.ToLower`
character-wise on the ASCII range. -/
def goCharToLower (c : Char) : Char :=
  if 'A' ≤ c && c ≤ 'Z' then Char.ofNat (c.toNat + 32) else c

/-- Model of Go `strings.ToLower`. -/
def goToLower (s : String) : String :=
  ⟨s.data.map goCharToLower⟩

/-- ASCII upper-casing of one character, modelling `strings.ToUpper`. -/
def goCharToUpper (c : Char) : Char :=
  if 'a' ≤ c && c ≤ 'z' then Char.ofNat (c.toNat - 32) else c

/-- Model of Go `strings.ToUpper`. -/
def goToUpper (s : String) : String :=
  ⟨s.data.map goCharToUpper⟩

/-- The normalization `strings.ToLower(strings.TrimSpace(s))` applied by the
codec `Set*` functions before name lookup. -/
def goNormalize (s : String) : String :=
  goToLower (goTrimSpace s)

/-- Splitting worker over character lists: scans left to right, on each
(leftmost, non-overlapping) occurrence of `sep` emits the accumulated
segment.  `fuel` bounds the recursion; every step consumes at least one
character, so `fuel = length of the input` suffices. -/
def goSplitAux (sep : List Char) : Nat → List Char → List Char → List (List Char)
  | _, acc, [] => [acc.reverse]
  | 0, acc, cs => [acc.reverse ++ cs]
  | fuel + 1, acc, c :: cs =>
    if sep.isPrefixOf (c :: cs) then
      acc.reverse :: goSplitAux sep fuel [] (List.drop (sep.length - 1) cs)
    else
      goSplitAux sep fuel (c :: acc) cs

/-- Model of Go `strings.Split` for a non-empty separator. -/
def goSplit (s sep : String) : List String :=
  (goSplitAux sep.data s.data.length [] s.data).map (fun l => ⟨l⟩)

/-- Model of Go `strings.Contains` for a non-empty separator: the string
contains `sep` exactly when splitting on it yields more than one part. -/
def goContains (s sep : String) : Bool :=
  (goSplit s sep).length != 1

/-- Joining worker over character lists. -/
def goJoinAux (sep : List Char) : List (List Char) → List Char
  | [] => []
  | [x] => x
  | x :: y :: rest => x ++ sep ++ goJoinAux sep (y :: rest)

/-- Model of Go `strings.Join`. -/
def goJoin (l : List String) (sep : String) : String :=
  ⟨goJoinAux sep.data (l.map String.data)⟩

/-! ## Decimal printing (Go `strconv.Itoa` / `fmt` `%d` verbs) -/

/-- The ASCII digit character for `d < 10`. -/
def digitChar (d : Nat) : Char :=
  Char.ofNat (48 + d)

/-- Big-endian decimal digits of `n`; emits nothing for `n = 0`.  `fuel`
bounds the recursion and `fuel ≥ n` makes it irrelevant. -/
def decDigitsAux : Nat → Nat → List Char
  | _, 0 => []
  | 0, _ + 1 => []
  | fuel + 1, n + 1 => decDigitsAux fuel ((n + 1) / 10) ++ [digitChar ((n + 1) % 10)]

/-- Decimal representation of a natural number. -/
def decRepr (n : Nat) : String :=
  if n = 0 then "0" else ⟨decDigitsAux n n⟩

/-- Model of Go `strconv.Itoa` / `fmt.Sprintf("%d", n)` on `int`. -/
def goIntRepr (n : Int) : String :=
  if n < 0 then ⟨'-' :: (decRepr n.natAbs).data⟩ else decRepr n.natAbs

/-- Model of Go `fmt.Sprintf("%0wd", n)`: zero-padding to `width` total
characters, the sign (if any) placed before the padding. -/
def goPadInt (width : Nat) (n : Int) : String :=
  let sign : List Char := if n < 0 then ['-'] else []
  let mag := (decRepr n.natAbs).data
  if width ≤ sign.length + mag.length then ⟨sign ++ mag⟩
  else ⟨sign ++ List.replicate (width - (sign.length + mag.length)) '0' ++ mag⟩

/-- Model of Go `strconv.Atoi`: an optional sign followed by at least one
decimal digit; anything else is a parse error (`none`). -/
def atoiDigits (cs : List Char) : Option Nat :=
  if cs ≠ [] && cs.all Char.isDigit then
    some (cs.foldl (fun a c => a * 10 + (c.toNat - 48)) 0)
  else none

/-- The int64 range gate of Go `strconv.Atoi` for a non-negative result:
magnitudes above `2^63 - 1` overflow and surface as a parse error. -/
def atoiRangePos (n : Nat) : Option Int :=
  if n ≤ 9223372036854775807 then some (Int.ofNat n) else none

/-- The int64 range gate of Go `strconv.Atoi` for a negated result:
magnitudes above `2^63` overflow. -/
def atoiRangeNeg (n : Nat) : Option Int :=
  if n ≤ 9223372036854775808 then some (-(Int.ofNat n)) else none

/-- Go `strconv.Atoi` with the error case as `none`: an optional sign
followed by at least one decimal digit, failing on malformed input and on
values outside the 64-bit `int` range (Go reports the range overflow as
an error, which the codec decode paths surface as their invalid-number
error). -/
def atoi (s : String) : Option Int :=
  match s.data with
  | [] => none
  | c :: rest =>
    if c = '+' then (atoiDigits rest).bind atoiRangePos
    else if c = '-' then (atoiDigits rest).bind atoiRangeNeg
    else (atoiDigits (c :: rest)).bind atoiRangePos

/-! ## Go byte-wise string comparison (`<` on strings) -/

/-- Lexicographic comparison of character lists by code point; on the ASCII
strings compared by the source this coincides with Go's byte-wise `<`. -/
def charListLt : List Char → List Char → Bool
  | [], [] => false
  | [], _ :: _ => true
  | _ :: _, [] => false
  | a :: as, b :: bs =>
    if a.toNat < b.toNat then true
    else if b.toNat < a.toNat then false
    else charListLt as bs

/-- Model of Go `s < t` on strings. -/
def goStringLt (a b : String) : Bool :=
  charListLt a.data b.data

/-- Non-strict companion of `goStringLt`. -/
def goStringLe (a b : String) : Bool :=
  !(goStringLt b a)

/-! ## Association lists (Go maps) -/

/-- Lookup in an association list (Go map read: `m[k]`, missing key gives
the `Option.none` that models the zero value / `ok = false`). -/
def assocFind? {α β : Type} [DecidableEq α] : List (α × β) → α → Option β
  | [], _ => none
  | (k, v) :: rest, a => if k = a then some v else assocFind? rest a

/-- Write to an association list (Go map write `m[k] = v`): replaces the
binding if present, otherwise appends it. -/
def assocSet {α β : Type} [DecidableEq α] : List (α × β) → α → β → List (α × β)
  | [], k, v => [(k, v)]
  | (k', v') :: rest, k, v =>
    if k' = k then (k, v) :: rest else (k', v') :: assocSet rest k v

/-! ## Decode errors (spec taxonomy for the codec decode paths) -/

/-- Error kinds surfaced by codec decoding, corresponding to the
`fmt.Errorf` messages in the source: unknown flag/enum name, unparsable
number, numeric value out of `[IndexNone, IndexMax)`. -/
inductive APNDecodeError : Type
  | unknownName (s : String)
  | invalidNumber (s : String)
  | outOfRange (n : Int)
deriving DecidableEq, Repr

/-! ## `APNTypeCoreOption` and the bitmask codec (`apntype.go`) -/

/-- Formatting options shared by the enum and bitmask codecs
(`APNTypeCoreOption` in the source). -/
structure APNTypeCoreOption : Type where
  xmlUseNumber : Bool
  xmlUseUpper : Bool
  xmlSeparator : String
  textSeparator : String
deriving DecidableEq, Repr

/-- Defaults of `NewAPNTypeCoreOption`. -/
def newAPNTypeCoreOption : APNTypeCoreOption :=
  ⟨false, false, ",", ","⟩

/-- Generic bitmask codec (`APNTypeCoreBitmask[Type]`), with the bounded
integer domain embedded as `Nat`. -/
structure APNTypeCoreBitmask : Type where
  indexNone : Nat
  indexDefault : Nat
  indexAll : Nat
  indexMax : Nat
  arrayIndex : List Nat
  mapByIndex : List (Nat × String)
  mapByString : List (String × Nat)
  option : APNTypeCoreOption
deriving DecidableEq, Repr

/-- `NewAPNTypeCoreBitmask`: collects the flags strictly between
`indexNone` and `indexMax` into a sorted `arrayIndex`, builds the reverse
map from the normalized names, and registers the aliases `"" ↦ indexNone`
and `"*" ↦ indexAll` (which take precedence, as the Go code writes them
after the table loop). -/
def newAPNTypeCoreBitmask (indexNone indexDefault indexAll indexMax : Nat)
    (table : List (Nat × String)) (opt : APNTypeCoreOption) : APNTypeCoreBitmask where
  indexNone := indexNone
  indexDefault := indexDefault
  indexAll := indexAll
  indexMax := indexMax
  arrayIndex :=
    List.insertionSort (· ≤ ·)
      ((table.filter (fun p => indexNone < p.1 && p.1 < indexMax)).map Prod.fst)
  mapByIndex := table
  mapByString :=
    [("", indexNone), ("*", indexAll)] ++ table.map (fun p => (goNormalize p.2, p.1))
  option := opt

/-- `GetStringByIndex`: name of a single flag, falling back to the name of
`indexNone` (and to `""` when even that is absent, as a Go map read). -/
def APNTypeCoreBitmask.getStringByIndex (c : APNTypeCoreBitmask) (i : Nat) : String :=
  match assocFind? c.mapByIndex i with
  | some s => s
  | none => (assocFind? c.mapByIndex c.indexNone).getD ""

/-- `GetStringArray`: the names of all flags of `arrayIndex` whose bits are
contained in `v`, in `arrayIndex` order; `[name of indexNone]` when no
flag matches. -/
def APNTypeCoreBitmask.getStringArray (c : APNTypeCoreBitmask) (v : Nat) : List String :=
  let arr := (c.arrayIndex.filter (fun f => decide (v &&& f = f))).map c.getStringByIndex
  if arr.isEmpty then [(assocFind? c.mapByIndex c.indexNone).getD ""] else arr

/-- `GetString`: flag names joined with a separator. -/
def APNTypeCoreBitmask.getString (c : APNTypeCoreBitmask) (v : Nat) (sep : String) : String :=
  goJoin (c.getStringArray v) sep

/-- `GetText`: `GetString` with the configured text separator. -/
def APNTypeCoreBitmask.getText (c : APNTypeCoreBitmask) (v : Nat) : String :=
  c.getString v c.option.textSeparator

/-- Worker of `SetStringArray`: normalizes each name, looks it up, and ORs
the values together, failing on the first unknown name. -/
def APNTypeCoreBitmask.setStringArrayAux (c : APNTypeCoreBitmask) :
    List String → Nat → Except APNDecodeError Nat
  | [], acc => .ok acc
  | s :: rest, acc =>
    match assocFind? c.mapByString (goNormalize s) with
    | none => .error (.unknownName (goNormalize s))
    | some i => c.setStringArrayAux rest (acc ||| i)

/-- `SetStringArray`: parse a list of flag names into a bitmask value,
starting from `indexNone`. -/
def APNTypeCoreBitmask.setStringArray (c : APNTypeCoreBitmask)
    (names : List String) : Except APNDecodeError Nat :=
  c.setStringArrayAux names c.indexNone

/-- `SetString`: split on the separator, then `SetStringArray`. -/
def APNTypeCoreBitmask.setString (c : APNTypeCoreBitmask)
    (s sep : String) : Except APNDecodeError Nat :=
  c.setStringArray (goSplit s sep)

/-- `UnmarshalXMLValue` of the bitmask codec: empty attribute decodes to
`indexNone`; in numeric mode the value must parse and lie in
`[indexNone, indexMax)`; otherwise the attribute is split on the XML
separator and parsed as names. -/
def APNTypeCoreBitmask.unmarshalXMLValue (c : APNTypeCoreBitmask)
    (s : String) : Except APNDecodeError Nat :=
  if s = "" then .ok c.indexNone
  else if c.option.xmlUseNumber then
    match atoi s with
    | none => .error (.invalidNumber s)
    | some n =>
      if n < (c.indexNone : Int) || (c.indexMax : Int) ≤ n then .error (.outOfRange n)
      else .ok n.toNat
  else c.setString s c.option.xmlSeparator

/-! ## The enum codec (`APNTypeCoreEnum` in `apntype.go`) -/

/-- Generic enum codec (`APNTypeCoreEnum[Type]`). -/
structure APNTypeCoreEnum : Type where
  indexNone : Nat
  indexDefault : Nat
  indexMax : Nat
  mapByIndex : List (Nat × String)
  mapByString : List (String × Nat)
  option : APNTypeCoreOption
deriving DecidableEq, Repr

/-- `NewAPNTypeCoreEnum`: builds the reverse map from normalized names and
registers `"" ↦ indexNone` and `"*" ↦ indexDefault`. -/
def newAPNTypeCoreEnum (indexNone indexDefault indexMax : Nat)
    (table : List (Nat × String)) (opt : APNTypeCoreOption) : APNTypeCoreEnum where
  indexNone := indexNone
  indexDefault := indexDefault
  indexMax := indexMax
  mapByIndex := table
  mapByString :=
    [("", indexNone), ("*", indexDefault)] ++ table.map (fun p => (goNormalize p.2, p.1))
  option := opt

/-- `GetString` of the enum codec, with the `indexNone` fallback. -/
def APNTypeCoreEnum.getString (c : APNTypeCoreEnum) (i : Nat) : String :=
  match assocFind? c.mapByIndex i with
  | some s => s
  | none => (assocFind? c.mapByIndex c.indexNone).getD ""

/-- `SetString` of the enum codec: normalize, then look the name up. -/
def APNTypeCoreEnum.setString (c : APNTypeCoreEnum) (s : String) :
    Except APNDecodeError Nat :=
  match assocFind? c.mapByString (goNormalize s) with
  | none => .error (.unknownName (goNormalize s))
  | some i => .ok i

/-- `UnmarshalXMLValue` of the enum codec. -/
def APNTypeCoreEnum.unmarshalXMLValue (c : APNTypeCoreEnum)
    (s : String) : Except APNDecodeError Nat :=
  if s = "" then .ok c.indexNone
  else if c.option.xmlUseNumber then
    match atoi s with
    | none => .error (.invalidNumber s)
    | some n =>
      if n < (c.indexNone : Int) || (c.indexMax : Int) ≤ n then .error (.outOfRange n)
      else .ok n.toNat
  else c.setString s

/-! ## The four configured codec instances of `apntype.go` -/

/-- The name table of `APNTypeBaseType` (flags `1 <<< k`). -/
def apnTypeBaseTypeTable : List (Nat × String) :=
  [(0, "none"), (1, "default"), (2, "mms"), (4, "supl"), (8, "dun"),
   (16, "hipri"), (32, "fota"), (64, "ims"), (128, "cbs"), (256, "ia"),
   (512, "emergency"), (1024, "mcx"), (2048, "xcap"), (4096, "vsim"),
   (8192, "bip"), (16384, "enterprise"), (32768, "rcs"),
   (65536, "oem_paid"), (131072, "oem_private")]

/-- `APNTypeBaseTypeConfig`: string mode, comma separators. -/
def apnTypeBaseTypeConfig : APNTypeCoreBitmask :=
  newAPNTypeCoreBitmask 0 1 262143 262144 apnTypeBaseTypeTable
    ⟨false, false, ",", ","⟩

/-- `APNTypeAuthTypeConfig`: numeric XML mode, pipe XML separator. -/
def apnTypeAuthTypeConfig : APNTypeCoreBitmask :=
  newAPNTypeCoreBitmask 0 1 3 4 [(0, "none"), (1, "pap"), (2, "chap")]
    ⟨true, false, "|", ","⟩

/-- `APNTypeBearerProtocolConfig`: enum, uppercase XML strings. -/
def apnTypeBearerProtocolConfig : APNTypeCoreEnum :=
  newAPNTypeCoreEnum 0 4 8
    [(0, "none"), (1, "ip"), (2, "ipv4"), (3, "ipv6"), (4, "ipv4v6"),
     (5, "ppp"), (6, "non-ip"), (7, "unstructured")]
    ⟨false, true, ",", ","⟩

deriving instance DecidableEq for Except

/-! ## The proxy codec design (`APNTypeCoreMap` / `APNTypeCoreProxy`,
from the later source iteration) -/

/-- Bidirectional index/string map (`APNTypeCoreMap[Type]`). -/
structure APNTypeCoreMap : Type where
  noneIndex : Nat
  maxIndex : Nat
  indexArray : List Nat
  mapByIndex : List (Nat × String)
  mapByString : List (String × Nat)
deriving DecidableEq, Repr

/-- `NewAPNTypeCoreMap`: trims the names, collects the indices strictly
between `noneIndex` and `maxIndex` into a sorted `indexArray`, and builds
both direction maps.  Unlike the bitmask codec it adds no `""`/`"*"`
aliases. -/
def newAPNTypeCoreMap (noneIndex maxIndex : Nat)
    (table : List (Nat × String)) : APNTypeCoreMap where
  noneIndex := noneIndex
  maxIndex := maxIndex
  indexArray :=
    List.insertionSort (· ≤ ·)
      ((table.filter (fun p => noneIndex < p.1 && p.1 < maxIndex)).map Prod.fst)
  mapByIndex := table.map (fun p => (p.1, goTrimSpace p.2))
  mapByString := table.map (fun p => (goTrimSpace p.2, p.1))

/-- `SetIndex`: accept an index only if it is a key of `mapByIndex`. -/
def APNTypeCoreMap.setIndex (m : APNTypeCoreMap) (i : Nat) :
    Except APNDecodeError Nat :=
  if (assocFind? m.mapByIndex i).isSome then .ok i
  else .error (.outOfRange (i : Int))

/-- `SetString`: raw lookup (no trimming or lower-casing here), then
`SetIndex`. -/
def APNTypeCoreMap.setString (m : APNTypeCoreMap) (s : String) :
    Except APNDecodeError Nat :=
  match assocFind? m.mapByString s with
  | none => .error (.unknownName s)
  | some i => m.setIndex i

/-- The index-collection phase of `SetStringArray`: each name is
lower-cased and trimmed before lookup. -/
def APNTypeCoreMap.collectIndexes (m : APNTypeCoreMap) :
    List String → Except APNDecodeError (List Nat)
  | [] => .ok []
  | s :: rest =>
    match assocFind? m.mapByString (goNormalize s) with
    | none => .error (.unknownName (goNormalize s))
    | some i => (m.collectIndexes rest).map (i :: ·)

/-- `SetIndexArray`: OR together indices, re-checking each against
`mapByIndex`, starting from `noneIndex`. -/
def APNTypeCoreMap.setIndexArray (m : APNTypeCoreMap) :
    List Nat → Nat → Except APNDecodeError Nat
  | [], acc => .ok acc
  | i :: rest, acc =>
    if (assocFind? m.mapByIndex i).isSome then m.setIndexArray rest (acc ||| i)
    else .error (.outOfRange (i : Int))

/-- `SetStringArray`: collect the indices of the normalized names, then
`SetIndexArray`. -/
def APNTypeCoreMap.setStringArray (m : APNTypeCoreMap) (names : List String) :
    Except APNDecodeError Nat :=
  (m.collectIndexes names).bind (fun l => m.setIndexArray l m.noneIndex)

/-- Serialization options of the proxy design
(`APNTypeCoreProxyOption`). -/
structure APNTypeCoreProxyOption : Type where
  jsonIsArray : Bool
  xmlIsArray : Bool
  xmlArrayHasSeparator : String
  xmlIsString : Bool
  xmlStringIsUpper : Bool
  xmlIsNumber : Bool
  xmlNumberIsOrder : Bool
  xmlNumberIsIndex : Bool
deriving DecidableEq, Repr

/-- `NewAPNTypeCoreProxyOption` defaults: single JSON value, lowercase XML
string representation. -/
def newAPNTypeCoreProxyOption : APNTypeCoreProxyOption :=
  ⟨false, false, "", true, false, false, false, false⟩

/-- `SetJSONIsArray`. -/
def APNTypeCoreProxyOption.setJSONIsArray (o : APNTypeCoreProxyOption)
    (b : Bool) : APNTypeCoreProxyOption :=
  { o with jsonIsArray := b }

/-- `SetXMLIsArray`. -/
def APNTypeCoreProxyOption.setXMLIsArray (o : APNTypeCoreProxyOption)
    (sep : String) : APNTypeCoreProxyOption :=
  { o with xmlIsArray := true, xmlArrayHasSeparator := sep }

/-- `SetXMLIsString`: disables number mode. -/
def APNTypeCoreProxyOption.setXMLIsString (o : APNTypeCoreProxyOption)
    (upper : Bool) : APNTypeCoreProxyOption :=
  { o with xmlIsNumber := false, xmlIsString := true, xmlStringIsUpper := upper }

/-- `SetXMLIsNumber`: disables string mode; `order = true` means 1-based
order numbers, `order = false` means raw index values. -/
def APNTypeCoreProxyOption.setXMLIsNumber (o : APNTypeCoreProxyOption)
    (order : Bool) : APNTypeCoreProxyOption :=
  { o with xmlIsString := false, xmlIsNumber := true,
           xmlNumberIsOrder := order, xmlNumberIsIndex := !order }

/-- `APNTypeCoreProxy[Type]`: a JSON map plus a derived XML map. -/
structure APNTypeCoreProxy : Type where
  jsonMap : APNTypeCoreMap
  xmlMap : APNTypeCoreMap
  option : APNTypeCoreProxyOption
deriving DecidableEq, Repr

/-- `NewAPNTypeCoreProxy`: the XML table holds the (optionally uppercased)
names in string mode and the 1-based order numbers of `indexArray` in
number mode. -/
def newAPNTypeCoreProxy (noneIndex maxIndex : Nat)
    (table : List (Nat × String)) (opt : APNTypeCoreProxyOption) : APNTypeCoreProxy :=
  let jsonMap := newAPNTypeCoreMap noneIndex maxIndex table
  let xmlTable :=
    (if opt.xmlIsString then
      jsonMap.mapByIndex.map
        (fun p => (p.1, if opt.xmlStringIsUpper then goToUpper p.2 else p.2))
     else []) ++
    (if opt.xmlIsNumber then
      (jsonMap.indexArray.enum.map (fun p => (p.2, decRepr (p.1 + 1))))
     else [])
  { jsonMap := jsonMap
    xmlMap := newAPNTypeCoreMap noneIndex maxIndex xmlTable
    option := opt }

/-- `UnmarshalXMLValue` of the proxy design.  `v0` is the current value of
the decoded field (Go writes through a pointer); the fall-through path
leaves it unchanged and reports no error. -/
def APNTypeCoreProxy.unmarshalXMLValue (p : APNTypeCoreProxy) (v0 : Nat)
    (s : String) : Except APNDecodeError Nat :=
  if p.option.xmlIsArray then
    p.xmlMap.setStringArray (goSplit s p.option.xmlArrayHasSeparator)
  else if p.option.xmlIsString then
    p.xmlMap.setString s
  else if p.option.xmlIsNumber then
    if p.option.xmlNumberIsOrder then
      p.xmlMap.setString s
    else if p.option.xmlNumberIsIndex then
      match atoi s with
      | none => .error (.invalidNumber s)
      | some n =>
        if n < (p.xmlMap.noneIndex : Int) || (p.xmlMap.maxIndex : Int) ≤ n then
          .error (.outOfRange n)
        else .ok n.toNat
    else .ok v0
  else .ok v0

/-- `apnTypeAuthTypeStorage` of the proxy iteration: JSON array mode, XML
as raw index numbers. -/
def apnTypeAuthTypeStorage : APNTypeCoreProxy :=
  newAPNTypeCoreProxy 0 4 [(0, "none"), (1, "pap"), (2, "chap")]
    ((newAPNTypeCoreProxyOption.setJSONIsArray true).setXMLIsNumber false)

/-- `apnTypeNetworkTypeStorage` of the proxy iteration: JSON array mode,
XML as pipe-separated 1-based order numbers. -/
def apnTypeNetworkTypeStorage : APNTypeCoreProxy :=
  newAPNTypeCoreProxy 0 1048576
    [(0, "unknown"), (1, "gprs"), (2, "edge"), (4, "umts"), (8, "cdma"),
     (16, "evdo_0"), (32, "evdo_a"), (64, "1xrtt"), (128, "hsdpa"),
     (256, "hsupa"), (512, "hspa"), (1024, "iden"), (2048, "evdo_b"),
     (4096, "lte"), (8192, "ehrpd"), (16384, "hspap"), (32768, "gsm"),
     (65536, "td_scdma"), (131072, "iwlan"), (262144, "lte_ca"),
     (524288, "nr")]
    (((newAPNTypeCoreProxyOption.setJSONIsArray true).setXMLIsArray "|").setXMLIsNumber true)

/-- `apnTypeBaseTypeStorage` of the proxy iteration: JSON array mode, XML
comma-separated array of (lowercase) flag names.  The name table is the
same 19-entry table as the `apntype.go` iteration. -/
def apnTypeBaseTypeStorage : APNTypeCoreProxy :=
  newAPNTypeCoreProxy 0 262144 apnTypeBaseTypeTable
    (((newAPNTypeCoreProxyOption.setJSONIsArray true).setXMLIsArray ",").setXMLIsString false)

/-- `apnTypeBearerProtocolStorage` of the proxy iteration: single JSON
value, uppercase XML strings.  In this iteration the bearer constants are
powers of two (`1 <<< k`, exclusive bound 128). -/
def apnTypeBearerProtocolStorage : APNTypeCoreProxy :=
  newAPNTypeCoreProxy 0 128
    [(0, "none"), (1, "ip"), (2, "ipv4"), (4, "ipv6"), (8, "ipv4v6"),
     (16, "ppp"), (32, "non-ip"), (64, "unstructured")]
    ((newAPNTypeCoreProxyOption.setJSONIsArray false).setXMLIsString true)

/-! ## The APN object model (`apnobject.go`) -/

/-- `APNObjectRoot`: carrier name, optional carrier ID, MCC, MNC. -/
structure APNObjectRoot : Type where
  carrier : String
  carrierID : Option Int
  mcc : Option Int
  mnc : Option Int
deriving DecidableEq, Repr, Inhabited

/-- `APNObjectBase`: APN string, capability-type bitmask, profile ID. -/
structure APNObjectBase : Type where
  apn : Option String
  type : Option Nat
  profileID : Option String
deriving DecidableEq, Repr

/-- `APNObjectAuth`: auth-type bitmask, username, password. -/
structure APNObjectAuth : Type where
  type : Option Nat
  username : Option String
  password : Option String
deriving DecidableEq, Repr

/-- `APNObjectBearer`: protocol, roaming protocol, MTU, server. -/
structure APNObjectBearer : Type where
  type : Option Nat
  typeRoaming : Option Nat
  mtu : Option Int
  server : Option String
deriving DecidableEq, Repr

/-- `APNObjectProxy`: proxy server and port. -/
structure APNObjectProxy : Type where
  server : Option String
  port : Option Int
deriving DecidableEq, Repr

/-- `APNObjectMms`: MMSC center, proxy server, port. -/
structure APNObjectMms : Type where
  center : Option String
  server : Option String
  port : Option Int
deriving DecidableEq, Repr

/-- `APNObjectMvno`: MVNO match type and data. -/
structure APNObjectMvno : Type where
  type : Option String
  data : Option String
deriving DecidableEq, Repr

/-- `APNObjectLimit`: connection limits. -/
structure APNObjectLimit : Type where
  maxConn : Option Int
  maxConnTime : Option Int
deriving DecidableEq, Repr

/-- `APNObjectOther`: network bitmask and flags. -/
structure APNObjectOther : Type where
  networkTypeBitmask : Option Nat
  modemCognitive : Option Bool
  carrierEnabled : Option Bool
  userVisible : Option Bool
  userEditable : Option Bool
deriving DecidableEq, Repr

/-- A flat APN record: the embedded root pointer plus the eight optional
field groups; this is the shape of one decoded `<apn>` element and of one
entry of a representative's `GroupMapByType`. -/
structure APNFlat : Type where
  root : Option APNObjectRoot
  base : Option APNObjectBase
  auth : Option APNObjectAuth
  bearer : Option APNObjectBearer
  proxy : Option APNObjectProxy
  mms : Option APNObjectMms
  mvno : Option APNObjectMvno
  limit : Option APNObjectLimit
  other : Option APNObjectOther
deriving DecidableEq, Repr

/-- The flat record with every field absent. -/
def emptyAPNFlat : APNFlat :=
  ⟨none, none, none, none, none, none, none, none, none⟩

instance : Inhabited APNFlat := ⟨emptyAPNFlat⟩

/-- `APNObject`: a flat record plus the optional `GroupMapByType` used on
merged representatives (children are flat records; the pipeline never
nests maps). -/
structure APNObject extends APNFlat where
  groupMapByType : Option (List (String × APNFlat))
deriving DecidableEq, Repr

instance : Inhabited APNObject := ⟨{ emptyAPNFlat with groupMapByType := none }⟩

/-! ### Validation (`Validate` methods; all are nil-receiver safe) -/

/-- `APNObjectRoot.Validate`: both MCC and MNC must be present. -/
def rootValidate : Option APNObjectRoot → Bool
  | some r => r.mcc.isSome && r.mnc.isSome
  | none => false

/-- `APNObjectRoot.Clone`: a field-wise copy, or `nil` when invalid. -/
def rootClone (p : Option APNObjectRoot) : Option APNObjectRoot :=
  if rootValidate p then
    p.map (fun r => ⟨r.carrier, r.carrierID, r.mcc, r.mnc⟩)
  else none

/-- `APNObjectBase.Validate`, with its defaulting side effect: when `apn`
is set and `type` absent, `type` is set to the DEFAULT capability (value
`1`); the result pairs the possibly-mutated group with the verdict. -/
def baseValidate : Option APNObjectBase → Option APNObjectBase × Bool
  | none => (none, false)
  | some b =>
    let b' := if b.apn.isSome && !b.type.isSome then { b with type := some 1 } else b
    (some b', b'.apn.isSome || b'.type.isSome || b'.profileID.isSome)

/-- `APNObjectBase.Clone`: copies the validated group, `nil` when
invalid. -/
def baseClone (p : Option APNObjectBase) : Option APNObjectBase :=
  let v := baseValidate p
  if v.2 then v.1 else none

/-- `APNObjectAuth.Validate` (claim C9): requires `type`; when at least one
of username/password is present, the absent one is defaulted to `""` as a
side effect and the group is valid. -/
def authValidate : Option APNObjectAuth → Option APNObjectAuth × Bool
  | none => (none, false)
  | some a =>
    if a.type.isSome then
      if a.username.isSome || a.password.isSome then
        (some { a with username := some (a.username.getD ""),
                       password := some (a.password.getD "") }, true)
      else (some a, false)
    else (some a, false)

/-- `APNObjectAuth.Clone`. -/
def authClone (p : Option APNObjectAuth) : Option APNObjectAuth :=
  let v := authValidate p
  if v.2 then v.1 else none

/-- `APNObjectBearer.Validate`: `type` or `typeRoaming` present. -/
def bearerValidate : Option APNObjectBearer → Bool
  | some b => b.type.isSome || b.typeRoaming.isSome
  | none => false

/-- `APNObjectBearer.Clone`. -/
def bearerClone (p : Option APNObjectBearer) : Option APNObjectBearer :=
  if bearerValidate p then p else none

/-- `APNObjectProxy.Validate`: non-empty `server` and a `port`. -/
def proxyValidate : Option APNObjectProxy → Bool
  | some x => (x.server.isSome && (x.server.getD "") ≠ "") && x.port.isSome
  | none => false

/-- `APNObjectProxy.Clone`. -/
def proxyClone (p : Option APNObjectProxy) : Option APNObjectProxy :=
  if proxyValidate p then p else none

/-- `APNObjectMms.Validate`: a non-empty center or server, or a port. -/
def mmsValidate : Option APNObjectMms → Bool
  | some x =>
    (x.center.isSome && (x.center.getD "") ≠ "") ||
    (x.server.isSome && (x.server.getD "") ≠ "") || x.port.isSome
  | none => false

/-- `APNObjectMms.Clone`. -/
def mmsClone (p : Option APNObjectMms) : Option APNObjectMms :=
  if mmsValidate p then p else none

/-- `APNObjectMvno.Validate`: `type` or `data` present. -/
def mvnoValidate : Option APNObjectMvno → Bool
  | some x => x.type.isSome || x.data.isSome
  | none => false

/-- `APNObjectMvno.Clone`. -/
def mvnoClone (p : Option APNObjectMvno) : Option APNObjectMvno :=
  if mvnoValidate p then p else none

/-- `APNObjectLimit.Validate`: a limit present. -/
def limitValidate : Option APNObjectLimit → Bool
  | some x => x.maxConn.isSome || x.maxConnTime.isSome
  | none => false

/-- `APNObjectLimit.Clone`. -/
def limitClone (p : Option APNObjectLimit) : Option APNObjectLimit :=
  if limitValidate p then p else none

/-- `APNObjectOther.Validate`: some field present. -/
def otherValidate : Option APNObjectOther → Bool
  | some x =>
    x.networkTypeBitmask.isSome || x.modemCognitive.isSome ||
    x.carrierEnabled.isSome || x.userVisible.isSome || x.userEditable.isSome
  | none => false

/-- `APNObjectOther.Clone`. -/
def otherClone (p : Option APNObjectOther) : Option APNObjectOther :=
  if otherValidate p then p else none

/-- Clone all nine components of a flat record (the group-wise part of
`APNObject.Clone`). -/
def flatClone (f : APNFlat) : APNFlat where
  root := rootClone f.root
  base := baseClone f.base
  auth := authClone f.auth
  bearer := bearerClone f.bearer
  proxy := proxyClone f.proxy
  mms := mmsClone f.mms
  mvno := mvnoClone f.mvno
  limit := limitClone f.limit
  other := otherClone f.other

/-- `APNObject.Clone`: deep-copies the flat part and, when the group map is
non-nil, clones every entry into a fresh map. -/
def APNObject.clone (o : APNObject) : APNObject where
  toAPNFlat := flatClone o.toAPNFlat
  groupMapByType := o.groupMapByType.map (fun m => m.map (fun p => (p.1, flatClone p.2)))

/-! ### Carrier-name cleaning and identity keys -/

/-- The separators tried, in order, by `GetCarrier`. -/
def carrierSeparatorArray : List String :=
  [" ", "-", "_", ".", ",", ":", ";", "|"]

/-- The stoplist `apnRootCarrierWordMask` of generic/technical tokens. -/
def apnRootCarrierWordMask : List String :=
  ["2g", "3g", "4g", "5g", "lte", "nsa", "sa", "gprs",
   "none", "default", "mms", "supl", "dun", "hipri", "fota", "ims", "cbs",
   "ia", "emergency", "mcx", "xcap", "vsim", "bip", "enterprise", "rcs",
   "oem_paid", "oem_private",
   "internet", "data", "web", "wap", "wifi", "vowifi", "volte", "hotspot",
   "tether", "ota", "admin", "ut",
   "-"]

/-- Membership in the stoplist (a Go `map[string]bool` read). -/
def maskContains (s : String) : Bool :=
  apnRootCarrierWordMask.contains s

/-- The token list of `GetCarrier`: split on the first separator the
carrier string contains; if none is found the whole string is the single
token. -/
def getCarrierTokens (s : String) : List String :=
  match carrierSeparatorArray.find? (fun sep => goContains s sep) with
  | some sep => goSplit s sep
  | none => [s]

/-- `APNObjectRoot.GetCarrier`: split, drop tokens whose normalized form is
stoplisted (the surviving tokens keep their original spelling), join with
a single space; if every token was dropped, return the original string. -/
def rootGetCarrier (r : APNObjectRoot) : String :=
  let s := r.carrier
  let kept := (getCarrierTokens s).foldl
    (fun acc t => if maskContains (goNormalize t) then acc else acc ++ [t]) []
  if kept = [] then s else goJoin kept " "

/-- `APNObjectRoot.GetPLMN`: `"%03d%02d"` of MCC and MNC, `"00000"` when
either is absent. -/
def rootGetPLMN (r : APNObjectRoot) : String :=
  match r.mcc, r.mnc with
  | some mcc, some mnc => goPadInt 3 mcc ++ goPadInt 2 mnc
  | _, _ => "00000"

/-- `APNObjectRoot.GetID`: optional `"CID:<id>;"` followed by
`"PLMN:<plmn>;"`. -/
def rootGetID (r : APNObjectRoot) : String :=
  (match r.carrierID with
   | some cid => "CID:" ++ goIntRepr cid ++ ";"
   | none => "") ++ ("PLMN:" ++ rootGetPLMN r ++ ";")

/-- `GetID` through the embedded root pointer of an object (the merge and
sort code always calls it on records whose root is present; the absent
case falls back to the zero root, like a Go nil-deref would never be
reached on the pipeline's values). -/
def objGetID (o : APNObject) : String :=
  rootGetID (o.root.getD default)

/-! ## The merge engine (`APNArray.UnmarshalXML`, grouping phase) -/

/-- The capability-type key used by the merge map: `Base.Type.String()`,
i.e. the flag names joined with the configured text separator. -/
def baseTypeKey (t : Nat) : String :=
  apnTypeBaseTypeConfig.getText t

/-- State of the grouping loop: the per-key member lists
(`apnPointerArrayMap`) and the per-key best root (`apnPointerRootMap`),
both as insertion-ordered association lists. -/
structure MergeState : Type where
  groups : List (String × List APNObject)
  best : List (String × APNObjectRoot)
deriving DecidableEq, Repr

/-- Append a member to its key's group list (creating the list on first
use, as `append(m[k], o)` does). -/
def groupsAppend (m : List (String × List APNObject)) (k : String)
    (o : APNObject) : List (String × List APNObject) :=
  match assocFind? m k with
  | some l => assocSet m k (l ++ [o])
  | none => m ++ [(k, [o])]

/-- Track the best identity root per key: replaced when absent or when the
new member's carrier string is strictly longer (ties keep the first
seen). -/
def bestUpdate (m : List (String × APNObjectRoot)) (k : String)
    (r : APNObjectRoot) : List (String × APNObjectRoot) :=
  match assocFind? m k with
  | none => m ++ [(k, r)]
  | some br => if goLen br.carrier < goLen r.carrier then assocSet m k r else m

/-- One iteration of the decode loop body for a decoded `<apn>` element:
invalid records (MCC or MNC absent) are skipped entirely. -/
def mergeStep (st : MergeState) (o : APNObject) : MergeState :=
  match o.root with
  | none => st
  | some r =>
    if r.mcc.isSome && r.mnc.isSome then
      let k := rootGetID r
      ⟨groupsAppend st.groups k o, bestUpdate st.best k r⟩
    else st

/-- The per-member contribution to a representative's `GroupMapByType`:
members lacking a Base group or a Base type are dropped; a kept member is
stored under its capability-type key with its root pointer cleared. -/
def groupMapUpdate (gm : List (String × APNFlat)) (o : APNObject) :
    List (String × APNFlat) :=
  match o.base with
  | none => gm
  | some b =>
    match b.type with
    | none => gm
    | some t => assocSet gm (baseTypeKey t) { o.toAPNFlat with root := none }

/-- Build one representative record for a key: identity is a clone of the
best root with the display-cleaned carrier substituted, the eight groups
are left absent, and the group map collects the members by capability
type. -/
def buildRep (mem : List APNObject) (bestR : APNObjectRoot) : APNObject where
  toAPNFlat :=
    { emptyAPNFlat with
      root := (rootClone (some bestR)).map (fun r => { r with carrier := rootGetCarrier r }) }
  groupMapByType := some (mem.foldl groupMapUpdate [])

/-! ### The output sort (`sort.Slice` comparator) -/

/-- The dereferenced MCC used by the sort comparator. -/
def derefMcc (o : APNObject) : Int :=
  ((o.root.getD default).mcc).getD 0

/-- The dereferenced MNC used by the sort comparator. -/
def derefMnc (o : APNObject) : Int :=
  ((o.root.getD default).mnc).getD 0

/-- The `less` function of `sort.Slice`: MCC, then MNC, then the identity
key compared as a Go string. -/
def apnLess (a b : APNObject) : Bool :=
  if derefMcc a ≠ derefMcc b then decide (derefMcc a < derefMcc b)
  else if derefMnc a ≠ derefMnc b then decide (derefMnc a < derefMnc b)
  else goStringLt (objGetID a) (objGetID b)

/-- The non-strict order the sorted output satisfies (`sort.Slice`
guarantees the result is sorted with respect to the negation of the
swapped comparator). -/
def apnSortLE (a b : APNObject) : Prop :=
  apnLess b a = false

instance : DecidableRel apnSortLE :=
  fun a b => inferInstanceAs (Decidable (apnLess b a = false))

/-- `APNArray.UnmarshalXML` after element decoding: group the valid
records by identity key, build one representative per key, and sort the
result by MCC, MNC, identity key. -/
def unmarshalMergeAPNArray (inputs : List APNObject) : List APNObject :=
  let st := inputs.foldl mergeStep ⟨[], []⟩
  let reps := st.groups.map (fun p => buildRep p.2 ((assocFind? st.best p.1).getD default))
  List.insertionSort apnSortLE reps

/-! ## The encoding side (`APNArray.MarshalXML`) -/

/-- The relation used to sort the group-map keys (`sort.Strings`). -/
def keyLE (a b : String) : Prop :=
  goStringLe a b = true

instance : DecidableRel keyLE :=
  fun a b => inferInstanceAs (Decidable (goStringLe a b = true))

/-- The flat elements emitted for one collection entry: a representative
with a `nil` map emits its clone as a single element; otherwise one
element per map entry in ascending key order, each being the (cloned)
entry with the representative's root in place of its own. -/
def emitAPNObject (o : APNObject) : List APNFlat :=
  let c := o.clone
  match c.groupMapByType with
  | none => [c.toAPNFlat]
  | some m =>
    (List.insertionSort keyLE (m.map Prod.fst)).map
      (fun k => { ((assocFind? m k).getD emptyAPNFlat) with root := c.root })

/-- `APNArray.MarshalXML`: the concatenation of every entry's emitted flat
elements, under the `<apns version="8">` wrapper (not modelled). -/
def marshalAPNArray (arr : List APNObject) : List APNFlat :=
  arr.flatMap emitAPNObject

/-! ## Order lemmas for the Go string comparison -/

theorem charToNat_inj {a b : Char} (h : a.toNat = b.toNat) : a = b :=
  Char.eq_of_val_eq (UInt32.ext h)

theorem charListLt_irrefl : ∀ l : List Char, charListLt l l = false
  | [] => rfl
  | c :: cs => by
    simp only [charListLt, if_neg (lt_irrefl c.toNat)]
    exact charListLt_irrefl cs

theorem charListLt_asymm : ∀ {a b : List Char},
    charListLt a b = true → charListLt b a = false
  | [], [], h => by simp [charListLt] at h
  | [], _ :: _, _ => rfl
  | _ :: _, [], h => by simp [charListLt] at h
  | a :: as, b :: bs, h => by
    simp only [charListLt] at h ⊢
    by_cases h1 : a.toNat < b.toNat
    · simp only [h1, if_true] at h ⊢
      simp only [if_neg (Nat.lt_asymm h1), if_pos h1]
    · by_cases h2 : b.toNat < a.toNat
      · simp [h1, h2] at h
      · simp only [h1, h2, if_false] at h ⊢
        exact charListLt_asymm h

theorem charListLt_trans : ∀ {a b c : List Char},
    charListLt a b = true → charListLt b c = true → charListLt a c = true
  | [], _, _ :: _, _, _ => rfl
  | [], b, [], _, h2 => by cases b <;> simp [charListLt] at h2
  | _ :: _, b, [], h1, h2 => by
    cases b
    · simp [charListLt] at h1
    · simp [charListLt] at h2
  | a :: as, [], c :: cs, h1, _ => by simp [charListLt] at h1
  | a :: as, b :: bs, c :: cs, h1, h2 => by
    simp only [charListLt] at h1 h2 ⊢
    by_cases hab : a.toNat < b.toNat
    · by_cases hbc : b.toNat < c.toNat
      · simp [Nat.lt_trans hab hbc]
      · by_cases hcb : c.toNat < b.toNat
        · simp [hbc, hcb] at h2
        · have : b.toNat = c.toNat := by omega
          simp [this ▸ hab]
    · by_cases hba : b.toNat < a.toNat
      · simp [hab, hba] at h1
      · have hab' : a.toNat = b.toNat := by omega
        by_cases hbc : b.toNat < c.toNat
        · simp [hab' ▸ hbc]
        · by_cases hcb : c.toNat < b.toNat
          · simp [hbc, hcb] at h2
          · have hbc' : b.toNat = c.toNat := by omega
            simp only [hab', if_neg (lt_irrefl _)] at h1
            simp only [hbc', if_neg (lt_irrefl _)] at h2
            have hac : a.toNat = c.toNat := hab'.trans hbc'
            simp only [hac, if_neg (lt_irrefl _)]
            exact charListLt_trans h1 h2

theorem charListLt_total : ∀ {a b : List Char},
    charListLt a b = false → charListLt b a = false → a = b
  | [], [], _, _ => rfl
  | [], _ :: _, h1, _ => by simp [charListLt] at h1
  | _ :: _, [], _, h2 => by simp [charListLt] at h2
  | a :: as, b :: bs, h1, h2 => by
    simp only [charListLt] at h1 h2
    by_cases hab : a.toNat < b.toNat
    · simp [hab] at h1
    · by_cases hba : b.toNat < a.toNat
      · simp [hab, hba] at h2
      · have hab' : a.toNat = b.toNat := by omega
        simp only [hab', if_neg (lt_irrefl _)] at h1
        simp only [hab'.symm, if_neg (lt_irrefl _)] at h2
        have := charListLt_total h1 h2
        rw [charToNat_inj hab', this]

theorem goStringLt_asymm {a b : String} (h : goStringLt a b = true) :
    goStringLt b a = false :=
  charListLt_asymm h

theorem goStringLt_total {a b : String} (h1 : goStringLt a b = false)
    (h2 : goStringLt b a = false) : a = b := by
  cases a; cases b
  exact congrArg String.mk (charListLt_total h1 h2)

theorem goStringLe_refl (a : String) : goStringLe a a = true := by
  simp [goStringLe, goStringLt, charListLt_irrefl]

theorem goStringLe_total (a b : String) :
    goStringLe a b = true ∨ goStringLe b a = true := by
  by_cases h : goStringLt b a = true
  · right; simp [goStringLe, goStringLt_asymm h]
  · left; simp [goStringLe]; exact Bool.eq_false_iff.mpr h

theorem goStringLe_trans {a b c : String} (h1 : goStringLe a b = true)
    (h2 : goStringLe b c = true) : goStringLe a c = true := by
  simp only [goStringLe, Bool.not_eq_true'] at h1 h2 ⊢
  by_cases hca : goStringLt c a = true
  · by_cases hab : goStringLt a b = true
    · have := charListLt_trans hca hab
      simp only [goStringLt] at this h2
      rw [this] at h2; cases h2
    · have hab' : a = b := goStringLt_total (Bool.eq_false_iff.mpr hab) h1
      subst hab'
      rw [hca] at h2; cases h2
  · exact Bool.eq_false_iff.mpr hca

instance : IsTotal String keyLE :=
  ⟨fun a b => goStringLe_total a b⟩

instance : IsTrans String keyLE :=
  ⟨fun _ _ _ => goStringLe_trans⟩

/-! ## The spec-level sort order and its equivalence to the comparator -/

/-- The order the spec describes for the merged output: ascending by MCC,
then MNC, then the string comparison of the formatted identity key. -/
def apnSortSpecLE (a b : APNObject) : Prop :=
  derefMcc a < derefMcc b ∨
    (derefMcc a = derefMcc b ∧
      (derefMnc a < derefMnc b ∨
        (derefMnc a = derefMnc b ∧ goStringLe (objGetID a) (objGetID b) = true)))

theorem apnSortLE_iff (a b : APNObject) : apnSortLE a b ↔ apnSortSpecLE a b := by
  unfold apnSortLE apnSortSpecLE apnLess
  by_cases h1 : derefMcc b = derefMcc a
  · rw [if_neg (by simp [h1]), h1]
    by_cases h2 : derefMnc b = derefMnc a
    · rw [if_neg (by simp [h2]), h2]
      unfold goStringLe
      constructor
      · intro h
        exact Or.inr ⟨rfl, Or.inr ⟨rfl, by simp [h]⟩⟩
      · rintro (h | ⟨-, h | ⟨-, h⟩⟩)
        · exact absurd h (lt_irrefl _)
        · exact absurd h (lt_irrefl _)
        · simpa using h
    · rw [if_pos h2]
      constructor
      · intro h
        have : ¬ derefMnc b < derefMnc a := by simpa using h
        exact Or.inr ⟨rfl, Or.inl (by omega)⟩
      · rintro (h | ⟨-, h | ⟨h, -⟩⟩)
        · exact absurd h (lt_irrefl _)
        · simp; omega
        · exact absurd h.symm h2
  · rw [if_pos h1]
    constructor
    · intro h
      have : ¬ derefMcc b < derefMcc a := by simpa using h
      exact Or.inl (by omega)
    · rintro (h | ⟨h, -⟩)
      · simp; omega
      · exact absurd h.symm h1

instance : IsTotal APNObject apnSortLE := by
  constructor
  intro a b
  rw [apnSortLE_iff, apnSortLE_iff]
  unfold apnSortSpecLE
  rcases lt_trichotomy (derefMcc a) (derefMcc b) with h | h | h
  · exact Or.inl (Or.inl h)
  · rcases lt_trichotomy (derefMnc a) (derefMnc b) with h2 | h2 | h2
    · exact Or.inl (Or.inr ⟨h, Or.inl h2⟩)
    · rcases goStringLe_total (objGetID a) (objGetID b) with h3 | h3
      · exact Or.inl (Or.inr ⟨h, Or.inr ⟨h2, h3⟩⟩)
      · exact Or.inr (Or.inr ⟨h.symm, Or.inr ⟨h2.symm, h3⟩⟩)
    · exact Or.inr (Or.inr ⟨h.symm, Or.inl h2⟩)
  · exact Or.inr (Or.inl h)

instance : IsTrans APNObject apnSortLE := by
  constructor
  intro a b c hab hbc
  rw [apnSortLE_iff] at *
  unfold apnSortSpecLE at *
  rcases hab with h1 | ⟨h1, h1'⟩
  · rcases hbc with h2 | ⟨h2, -⟩
    · exact Or.inl (h1.trans h2)
    · exact Or.inl (h2 ▸ h1)
  · rcases hbc with h2 | ⟨h2, h2'⟩
    · exact Or.inl (h1 ▸ h2)
    · refine Or.inr ⟨h1.trans h2, ?_⟩
      rcases h1' with h3 | ⟨h3, h3'⟩
      · rcases h2' with h4 | ⟨h4, -⟩
        · exact Or.inl (h3.trans h4)
        · exact Or.inl (h4 ▸ h3)
      · rcases h2' with h4 | ⟨h4, h4'⟩
        · exact Or.inl (h3 ▸ h4)
        · exact Or.inr ⟨h3.trans h4, goStringLe_trans h3' h4'⟩

/-! ## Bit-level lemmas for the bitmask round trip -/

theorem testBit_foldl_lor : ∀ (S : List Nat) (acc : Nat) (j : Nat),
    (S.foldl (· ||| ·) acc).testBit j = (acc.testBit j || S.any (fun g => g.testBit j))
  | [], _, _ => by simp
  | g :: S, acc, j => by
    simp only [List.foldl_cons, List.any_cons]
    rw [testBit_foldl_lor S (acc ||| g) j, Nat.testBit_lor]
    simp [Bool.or_assoc]

theorem land_two_pow_eq_iff (v e : Nat) :
    v &&& 2 ^ e = 2 ^ e ↔ v.testBit e = true := by
  constructor
  · intro h
    have := congrArg (fun x => x.testBit e) h
    simpa [Nat.testBit_land, Nat.testBit_two_pow_self] using this
  · intro h
    apply Nat.eq_of_testBit_eq
    intro j
    rcases eq_or_ne e j with rfl | hne
    · simp [Nat.testBit_land, Nat.testBit_two_pow_self, h]
    · simp [Nat.testBit_land, Nat.testBit_two_pow_of_ne hne]

/-- Well-formedness of a bitmask codec: `indexNone` is zero, the ordered
flags are the (duplicate-free) powers of two given by `exps`, listed in
strictly ascending order, and each flag's table name round-trips through
the normalized reverse lookup. -/
def BitmaskWF (c : APNTypeCoreBitmask) (exps : List Nat) : Prop :=
  c.indexNone = 0 ∧
  c.arrayIndex = exps.map (fun e => 2 ^ e) ∧
  exps.Nodup ∧
  List.Pairwise (· < ·) c.arrayIndex ∧
  ∀ f ∈ c.arrayIndex,
    (assocFind? c.mapByIndex f).isSome = true ∧
    assocFind? c.mapByString (goNormalize ((assocFind? c.mapByIndex f).getD "")) = some f

/-- The canonical table name of a flag. -/
def bitmaskNameOf (c : APNTypeCoreBitmask) (f : Nat) : String :=
  (assocFind? c.mapByIndex f).getD ""

theorem setStringArrayAux_names (c : APNTypeCoreBitmask) (exps : List Nat)
    (hwf : BitmaskWF c exps) :
    ∀ (S : List Nat) (acc : Nat), (∀ f ∈ S, f ∈ c.arrayIndex) →
      c.setStringArrayAux (S.map (bitmaskNameOf c)) acc = .ok (S.foldl (· ||| ·) acc)
  | [], acc, _ => rfl
  | f :: S, acc, hS => by
    have hf := (hwf.2.2.2.2 f (hS f (by simp))).2
    simp only [List.map_cons, APNTypeCoreBitmask.setStringArrayAux, bitmaskNameOf, hf]
    exact setStringArrayAux_names c exps hwf S (acc ||| f) (fun g hg => hS g (by simp [hg]))

theorem orFold_testBit_mem (c : APNTypeCoreBitmask) (exps : List Nat)
    (hwf : BitmaskWF c exps) (S : List Nat) (hS : ∀ f ∈ S, f ∈ c.arrayIndex)
    (e : Nat) :
    (S.foldl (· ||| ·) 0).testBit e = true ↔ (2 ^ e) ∈ S := by
  rw [testBit_foldl_lor]
  simp only [Nat.zero_testBit, Bool.false_or, List.any_eq_true]
  constructor
  · rintro ⟨g, hg, hbit⟩
    have hga := hS g hg
    rw [hwf.2.1] at hga
    obtain ⟨eg, -, rfl⟩ := List.mem_map.mp hga
    have : eg = e := by
      by_contra hne
      rw [Nat.testBit_two_pow_of_ne hne] at hbit
      cases hbit
    exact this ▸ hg
  · intro h
    exact ⟨2 ^ e, h, Nat.testBit_two_pow_self⟩

/-- C1: for every bitmask type codec (any well-formed instance of
`APNTypeCoreBitmask`) and every subset `S` of `orderedFlags`, composing
the names of `S` into a value and then decomposing that value yields
exactly the flags of `S`, in ascending flag order; when `S` is empty the
decomposition yields exactly the one-element list holding the name of
`noneValue`. -/
theorem bitmask_compose_decompose (c : APNTypeCoreBitmask) (exps : List Nat)
    (hwf : BitmaskWF c exps) (S : List Nat) (hS : ∀ f ∈ S, f ∈ c.arrayIndex) :
    c.setStringArray (S.map (bitmaskNameOf c)) = .ok (S.foldl (· ||| ·) 0) ∧
    c.getStringArray (S.foldl (· ||| ·) 0) =
      (if S = [] then [bitmaskNameOf c c.indexNone]
       else (c.arrayIndex.filter (fun f => decide (f ∈ S))).map (bitmaskNameOf c)) ∧
    List.Pairwise (· < ·) (c.arrayIndex.filter (fun f => decide (f ∈ S))) := by
  set v := S.foldl (· ||| ·) 0 with hv
  have hfilter :
      c.arrayIndex.filter (fun f => decide (v &&& f = f)) =
      c.arrayIndex.filter (fun f => decide (f ∈ S)) := by
    apply List.filter_congr
    intro f hf
    have hfa := hf
    rw [hwf.2.1] at hfa
    obtain ⟨e, -, rfl⟩ := List.mem_map.mp hfa
    simp only [decide_eq_decide]
    rw [land_two_pow_eq_iff]
    exact orFold_testBit_mem c exps hwf S hS e
  refine ⟨?_, ?_, List.Pairwise.filter _ hwf.2.2.2.1⟩
  · unfold APNTypeCoreBitmask.setStringArray
    rw [hwf.1]
    exact setStringArrayAux_names c exps hwf S 0 hS
  · unfold APNTypeCoreBitmask.getStringArray
    rw [hfilter]
    rcases eq_or_ne S [] with rfl | hne
    · simp [bitmaskNameOf]
    · have hmem : ∃ f, f ∈ c.arrayIndex.filter (fun f => decide (f ∈ S)) := by
        obtain ⟨f, hf⟩ := List.exists_mem_of_ne_nil S hne
        exact ⟨f, List.mem_filter.mpr ⟨hS f hf, by simpa using hf⟩⟩
      obtain ⟨f, hf⟩ := hmem
      have hne2 : (c.arrayIndex.filter (fun f => decide (f ∈ S))).map c.getStringByIndex ≠ [] := by
        simp only [ne_eq, List.map_eq_nil_iff]
        intro h
        rw [h] at hf
        cases hf
      rw [if_neg hne, if_neg (by simpa [List.isEmpty_iff] using hne2)]
      apply List.map_congr_left
      intro f hf
      have hfm := (List.mem_filter.mp hf).1
      have := (hwf.2.2.2.2 f hfm).1
      unfold APNTypeCoreBitmask.getStringByIndex bitmaskNameOf
      cases hfind : assocFind? c.mapByIndex f with
      | some s => simp
      | none => rw [hfind] at this; cases this

instance (c : APNTypeCoreBitmask) (exps : List Nat) : Decidable (BitmaskWF c exps) := by
  unfold BitmaskWF
  infer_instance

/-- The flag exponents of `APNTypeBaseTypeConfig`. -/
def baseExps : List Nat :=
  [0, 1, 2, 3, 4, 5, 6, 7, 8, 9, 10, 11, 12, 13, 14, 15, 16, 17]

/-- Witness for C1: the Base-type codec round-trips the subset
`[mms, ia]` (flags 2 and 256). -/
theorem bitmask_compose_decompose_witness :
    apnTypeBaseTypeConfig.setStringArray
        ([2, 256].map (bitmaskNameOf apnTypeBaseTypeConfig)) =
      .ok ([2, 256].foldl (· ||| ·) 0) ∧
    apnTypeBaseTypeConfig.getStringArray ([2, 256].foldl (· ||| ·) 0) =
      (if ([2, 256] : List Nat) = [] then
        [bitmaskNameOf apnTypeBaseTypeConfig apnTypeBaseTypeConfig.indexNone]
       else
        (apnTypeBaseTypeConfig.arrayIndex.filter
            (fun f => decide (f ∈ ([2, 256] : List Nat)))).map
          (bitmaskNameOf apnTypeBaseTypeConfig)) ∧
    List.Pairwise (· < ·)
      (apnTypeBaseTypeConfig.arrayIndex.filter
        (fun f => decide (f ∈ ([2, 256] : List Nat)))) :=
  bitmask_compose_decompose apnTypeBaseTypeConfig baseExps (by decide)
    [2, 256] (by decide)

/-- C3: for every input sequence, the merged output collection is sorted
ascending with MCC as the primary key, MNC as the secondary key, and the
string comparison of the formatted identity key as the tertiary
tie-breaker. -/
theorem merge_output_sorted (inputs : List APNObject) :
    (unmarshalMergeAPNArray inputs).Sorted apnSortSpecLE := by
  unfold unmarshalMergeAPNArray
  exact (List.sorted_insertionSort apnSortLE _).imp
    (fun h => (apnSortLE_iff _ _).mp h)

/-! ## C9: Auth validation defaulting -/

/-- C9: for every Auth group with `type` set and exactly one of
username/password absent, `Validate` sets the absent one to the empty
string, reports the group valid, and a second call changes neither the
fields nor the result. -/
theorem auth_validate_defaulting (a : APNObjectAuth) (ht : a.type.isSome = true)
    (hx : (a.username = none ∧ a.password ≠ none) ∨
          (a.username ≠ none ∧ a.password = none)) :
    ∃ a' : APNObjectAuth,
      authValidate (some a) = (some a', true) ∧
      a'.type = a.type ∧
      a'.username = some (a.username.getD "") ∧
      a'.password = some (a.password.getD "") ∧
      authValidate (some a') = (some a', true) := by
  obtain ⟨ty, u, pw⟩ := a
  obtain ⟨t, rfl⟩ := Option.isSome_iff_exists.mp ht
  rcases hx with ⟨hu, hp⟩ | ⟨hu, hp⟩
  · obtain ⟨p, rfl⟩ := Option.ne_none_iff_exists'.mp hp
    subst hu
    exact ⟨⟨some t, some "", some p⟩, rfl, rfl, rfl, rfl, rfl⟩
  · obtain ⟨v, rfl⟩ := Option.ne_none_iff_exists'.mp hu
    subst hp
    exact ⟨⟨some t, some v, some ""⟩, rfl, rfl, rfl, rfl, rfl⟩

/-- Witness for C9: the spec's example, `type = pap`, username absent,
password `"x"`, validates to username `""`, password `"x"`. -/
theorem auth_validate_defaulting_witness :
    ∃ a' : APNObjectAuth,
      authValidate (some ⟨some 1, none, some "x"⟩) = (some a', true) ∧
      a'.type = (⟨some 1, none, some "x"⟩ : APNObjectAuth).type ∧
      a'.username = some ((⟨some 1, none, some "x"⟩ : APNObjectAuth).username.getD "") ∧
      a'.password = some ((⟨some 1, none, some "x"⟩ : APNObjectAuth).password.getD "") ∧
      authValidate (some a') = (some a', true) :=
  auth_validate_defaulting ⟨some 1, none, some "x"⟩ (by decide)
    (Or.inl ⟨rfl, by decide⟩)

/-! ## C6: carrier-name cleaning -/

/-- The surviving tokens of the cleaning pipeline, as a filter. -/
def carrierKept (s : String) : List String :=
  (getCarrierTokens s).filter (fun t => !(maskContains (goNormalize t)))

theorem carrier_foldl_filter (l : List String) :
    ∀ acc : List String,
      l.foldl (fun acc t => if maskContains (goNormalize t) then acc else acc ++ [t]) acc =
        acc ++ l.filter (fun t => !(maskContains (goNormalize t))) := by
  induction l with
  | nil => intro acc; simp
  | cons t l ih =>
    intro acc
    by_cases h : maskContains (goNormalize t) = true
    · simp [h, ih]
    · simp only [Bool.not_eq_true] at h
      simp [h, ih, List.append_assoc]

/-- C6 counterexample: the raw carrier string `"-lte"` is non-empty, yet
`GetCarrier` returns the empty string (the split yields `["", "lte"]`,
`"lte"` is stoplisted, and the surviving token is `""`). -/
theorem getCarrier_empty_on_nonempty_input :
    rootGetCarrier ⟨"-lte", none, none, none⟩ = "" ∧ ("-lte" : String) ≠ "" := by
  constructor
  · decide
  · decide

/-- C6 (amended): `GetCarrier` splits on the first separator found,
filters stoplisted tokens and joins the survivors with a single space,
returning the original string unchanged when filtering removes every
token; the result is guaranteed non-empty for non-empty input only when
the input contains no separator (an input whose surviving tokens are all
empty, such as `"-lte"`, produces the empty string). -/
theorem getCarrier_amended (r : APNObjectRoot) :
    (rootGetCarrier r =
      if carrierKept r.carrier = [] then r.carrier
      else goJoin (carrierKept r.carrier) " ") ∧
    (r.carrier ≠ "" →
      (∀ sep ∈ carrierSeparatorArray, goContains r.carrier sep = false) →
      rootGetCarrier r ≠ "") := by
  have hmain : rootGetCarrier r =
      if carrierKept r.carrier = [] then r.carrier
      else goJoin (carrierKept r.carrier) " " := by
    unfold rootGetCarrier carrierKept
    simp only [carrier_foldl_filter, List.nil_append]
  refine ⟨hmain, ?_⟩
  intro hne hsep
  have htok : getCarrierTokens r.carrier = [r.carrier] := by
    unfold getCarrierTokens
    rw [List.find?_eq_none.mpr (fun sep hs => by simp [hsep sep hs])]
  rw [hmain]
  unfold carrierKept
  rw [htok]
  by_cases h : maskContains (goNormalize r.carrier) = true
  · simp [h, hne]
  · simp only [Bool.not_eq_true] at h
    simp only [List.filter_cons, h, List.filter_nil]
    rw [if_neg (by simp)]
    simpa [goJoin, goJoinAux] using hne

/-- Witness for C6 at the spec's all-stoplisted example `"LTE"`: the
fallback applies and the result is non-empty. -/
theorem getCarrier_amended_witness :
    (rootGetCarrier ⟨"LTE", none, none, none⟩ =
      if carrierKept (APNObjectRoot.mk "LTE" none none none).carrier = []
      then (APNObjectRoot.mk "LTE" none none none).carrier
      else goJoin (carrierKept (APNObjectRoot.mk "LTE" none none none).carrier) " ") ∧
    rootGetCarrier ⟨"LTE", none, none, none⟩ ≠ "" :=
  ⟨(getCarrier_amended ⟨"LTE", none, none, none⟩).1,
   (getCarrier_amended ⟨"LTE", none, none, none⟩).2 (by decide) (by decide)⟩

/-! ## C7: identity-key formatting -/

theorem decDigitsAux_length_le :
    ∀ (fuel n k : Nat), n ≤ fuel → n < 10 ^ k → (decDigitsAux fuel n).length ≤ k
  | _, 0, _, _, _ => by simp [decDigitsAux]
  | 0, n + 1, _, hf, _ => by omega
  | fuel + 1, n + 1, k, hf, hk => by
    have hk1 : 1 ≤ k := by
      have : k ≠ 0 := by
        rintro rfl
        rw [pow_zero] at hk
        omega
      omega
    obtain ⟨k', rfl⟩ : ∃ k', k = k' + 1 := ⟨k - 1, by omega⟩
    have hdivfuel : (n + 1) / 10 ≤ fuel := by
      have := Nat.div_lt_self (Nat.succ_pos n) (by norm_num : (1 : Nat) < 10)
      omega
    have hdiv : (n + 1) / 10 < 10 ^ k' := by
      rw [Nat.div_lt_iff_lt_mul (by norm_num)]
      calc n + 1 < 10 ^ (k' + 1) := hk
        _ = 10 ^ k' * 10 := by ring
    have ih := decDigitsAux_length_le fuel ((n + 1) / 10) k' hdivfuel hdiv
    simp only [decDigitsAux, List.length_append, List.length_cons, List.length_nil]
    omega

theorem decRepr_length_le (n k : Nat) (h : n < 10 ^ k) (hk : 1 ≤ k) :
    (decRepr n).data.length ≤ k := by
  unfold decRepr
  rcases eq_or_ne n 0 with rfl | hne
  · simpa using hk
  · rw [if_neg hne]
    exact decDigitsAux_length_le n n k le_rfl h

theorem goPadInt_ofNat (w : Nat) (m : Nat) :
    goPadInt w (Int.ofNat m) =
      if w ≤ (decRepr m).data.length then decRepr m
      else ⟨List.replicate (w - (decRepr m).data.length) '0' ++ (decRepr m).data⟩ := by
  unfold goPadInt
  have hneg : ¬ ((Int.ofNat m) < 0) := by
    simp [Int.ofNat_nonneg]
  have habs : (Int.ofNat m).natAbs = m := Int.natAbs_ofNat m
  simp only [hneg, if_false, habs, List.length_nil, Nat.zero_add,
    List.nil_append]

theorem goPadInt_length (w : Nat) (n : Int) (h0 : 0 ≤ n) (h : n < (10 : Int) ^ w)
    (hw : 1 ≤ w) : (goPadInt w n).length = w := by
  obtain ⟨m, rfl⟩ := Int.eq_ofNat_of_zero_le h0
  have hm : m < 10 ^ w := by exact_mod_cast h
  have hlen : (decRepr m).data.length ≤ w := decRepr_length_le m w hm hw
  rw [show ((m : Int)) = Int.ofNat m from rfl, goPadInt_ofNat]
  by_cases hcase : w ≤ (decRepr m).data.length
  · rw [if_pos hcase]
    show (decRepr m).data.length = w
    omega
  · rw [if_neg hcase]
    show (List.replicate (w - (decRepr m).data.length) '0' ++ (decRepr m).data).length = w
    simp only [List.length_append, List.length_replicate]
    omega

/-- C7: `GetID` is the optional `"CID:<carrierID>;"` prefix followed by
`"PLMN:<p>;"`, where for a 3-digit MCC and 2-digit MNC the PLMN `p` is
their zero-padded concatenation of total length 5, and `p` renders as
`"00000"` when MCC or MNC is absent. -/
theorem getID_format (r : APNObjectRoot) (mcc mnc : Int)
    (h1 : r.mcc = some mcc) (h2 : r.mnc = some mnc)
    (hm0 : 0 ≤ mcc) (hm1 : mcc < 1000) (hn0 : 0 ≤ mnc) (hn1 : mnc < 100) :
    (rootGetPLMN r = goPadInt 3 mcc ++ goPadInt 2 mnc ∧
     (goPadInt 3 mcc).length = 3 ∧
     (goPadInt 2 mnc).length = 2 ∧
     (rootGetPLMN r).length = 5 ∧
     (∀ cid, r.carrierID = some cid →
        rootGetID r = ("CID:" ++ goIntRepr cid ++ ";") ++
          ("PLMN:" ++ rootGetPLMN r ++ ";")) ∧
     (r.carrierID = none → rootGetID r = "PLMN:" ++ rootGetPLMN r ++ ";")) ∧
    (∀ r' : APNObjectRoot, r'.mcc = none ∨ r'.mnc = none →
      rootGetPLMN r' = "00000") := by
  have hplmn : rootGetPLMN r = goPadInt 3 mcc ++ goPadInt 2 mnc := by
    unfold rootGetPLMN
    rw [h1, h2]
  have hl3 : (goPadInt 3 mcc).length = 3 :=
    goPadInt_length 3 mcc hm0 (by norm_num; omega) (by norm_num)
  have hl2 : (goPadInt 2 mnc).length = 2 :=
    goPadInt_length 2 mnc hn0 (by norm_num; omega) (by norm_num)
  refine ⟨⟨hplmn, hl3, hl2, ?_, ?_, ?_⟩, ?_⟩
  · rw [hplmn, String.length_append, hl3, hl2]
  · intro cid hcid
    unfold rootGetID
    rw [hcid]
  · intro hcid
    unfold rootGetID
    rw [hcid]
    rfl
  · intro r' hr'
    unfold rootGetPLMN
    rcases hr' with h | h
    · rw [h]
    · rw [h]
      cases r'.mcc <;> rfl

/-- Witness for C7: MCC 208, MNC 1, carrier ID 1435. -/
theorem getID_format_witness :
    (rootGetPLMN ⟨"Orange", some 1435, some 208, some 1⟩ =
        goPadInt 3 208 ++ goPadInt 2 1 ∧
     (goPadInt 3 (208 : Int)).length = 3 ∧
     (goPadInt 2 (1 : Int)).length = 2 ∧
     (rootGetPLMN ⟨"Orange", some 1435, some 208, some 1⟩).length = 5 ∧
     (∀ cid, (APNObjectRoot.mk "Orange" (some 1435) (some 208) (some 1)).carrierID = some cid →
        rootGetID ⟨"Orange", some 1435, some 208, some 1⟩ =
          ("CID:" ++ goIntRepr cid ++ ";") ++
            ("PLMN:" ++ rootGetPLMN ⟨"Orange", some 1435, some 208, some 1⟩ ++ ";")) ∧
     ((APNObjectRoot.mk "Orange" (some 1435) (some 208) (some 1)).carrierID = none →
        rootGetID ⟨"Orange", some 1435, some 208, some 1⟩ =
          "PLMN:" ++ rootGetPLMN ⟨"Orange", some 1435, some 208, some 1⟩ ++ ";")) ∧
    (∀ r' : APNObjectRoot, r'.mcc = none ∨ r'.mnc = none →
      rootGetPLMN r' = "00000") :=
  getID_format ⟨"Orange", some 1435, some 208, some 1⟩ 208 1 rfl rfl
    (by decide) (by decide) (by decide) (by decide)

/-! ## Merge-engine invariants (C2, C4, C10) -/

theorem assocFind?_eq_none_iff {α β : Type} [DecidableEq α]
    (m : List (α × β)) (k : α) :
    assocFind? m k = none ↔ k ∉ m.map Prod.fst := by
  induction m with
  | nil => simp [assocFind?]
  | cons p rest ih =>
    obtain ⟨k', v'⟩ := p
    by_cases h : k' = k
    · subst h
      simp [assocFind?]
    · simp [assocFind?, h, ih, Ne.symm h]

theorem assocFind?_assocSet_self {α β : Type} [DecidableEq α]
    (m : List (α × β)) (k : α) (v : β) :
    assocFind? (assocSet m k v) k = some v := by
  induction m with
  | nil => simp [assocSet, assocFind?]
  | cons p rest ih =>
    obtain ⟨k', v'⟩ := p
    by_cases h : k' = k
    · simp [assocSet, h, assocFind?]
    · simp [assocSet, h, assocFind?, ih]

theorem assocFind?_assocSet_ne {α β : Type} [DecidableEq α]
    (m : List (α × β)) (k k' : α) (v : β) (h : k' ≠ k) :
    assocFind? (assocSet m k v) k' = assocFind? m k' := by
  induction m with
  | nil => simp [assocSet, assocFind?, Ne.symm h]
  | cons p rest ih =>
    obtain ⟨k0, v0⟩ := p
    by_cases h0 : k0 = k
    · subst h0
      simp [assocSet, assocFind?, Ne.symm h]
    · simp [assocSet, h0, assocFind?, ih]

theorem assocSet_keys {α β : Type} [DecidableEq α]
    (m : List (α × β)) (k : α) (v : β) (h : (assocFind? m k).isSome = true) :
    (assocSet m k v).map Prod.fst = m.map Prod.fst := by
  induction m with
  | nil => simp [assocFind?] at h
  | cons p rest ih =>
    obtain ⟨k0, v0⟩ := p
    by_cases h0 : k0 = k
    · simp [assocSet, h0]
    · rw [assocFind?] at h
      simp only [h0, if_false] at h
      simp [assocSet, h0, ih h]

theorem assocFind?_append {α β : Type} [DecidableEq α]
    (m m' : List (α × β)) (k : α) :
    assocFind? (m ++ m') k = (assocFind? m k).or (assocFind? m' k) := by
  induction m with
  | nil => simp [assocFind?]
  | cons p rest ih =>
    obtain ⟨k0, v0⟩ := p
    by_cases h0 : k0 = k
    · simp [assocFind?, h0]
    · simp [assocFind?, h0, ih]

theorem assocFind?_of_mem_nodup {α β : Type} [DecidableEq α]
    (m : List (α × β)) (h : (m.map Prod.fst).Nodup) (p : α × β) (hp : p ∈ m) :
    assocFind? m p.1 = some p.2 := by
  induction m with
  | nil => cases hp
  | cons q rest ih =>
    obtain ⟨k0, v0⟩ := q
    rcases List.mem_cons.mp hp with rfl | hmem
    · simp [assocFind?]
    · have hk0 : k0 ≠ p.1 := by
        intro hk
        subst hk
        exact (List.nodup_cons.mp h).1
          (List.mem_map.mpr ⟨p, hmem, rfl⟩)
      simp only [assocFind?, hk0, if_false]
      exact ih (List.nodup_cons.mp h).2 hmem

/-! ### The per-key views of the input sequence -/

/-- The record is identity-valid and grouped under key `k`. -/
def validObjKey (o : APNObject) (k : String) : Bool :=
  match o.root with
  | some r => r.mcc.isSome && r.mnc.isSome && (rootGetID r == k)
  | none => false

/-- The valid input records grouped under key `k`, in input order. -/
def keyMembers (inputs : List APNObject) (k : String) : List APNObject :=
  inputs.filter (fun o => validObjKey o k)

/-- The identity roots of the key's members, in input order. -/
def keyRoots (inputs : List APNObject) (k : String) : List APNObjectRoot :=
  (keyMembers inputs k).filterMap (fun o => o.root)

/-- One step of the spec's best-identity rule: replace the candidate when
the new carrier string is strictly longer (ties keep the first seen). -/
def bestStep (acc : Option APNObjectRoot) (r : APNObjectRoot) :
    Option APNObjectRoot :=
  match acc with
  | none => some r
  | some br => if goLen br.carrier < goLen r.carrier then some r else some br

/-- The spec's best-identity choice over a list of member roots. -/
def chooseBest (rs : List APNObjectRoot) : Option APNObjectRoot :=
  rs.foldl bestStep none

theorem groupsAppend_self (m : List (String × List APNObject)) (k : String)
    (o : APNObject) :
    assocFind? (groupsAppend m k o) k = some ((assocFind? m k).getD [] ++ [o]) := by
  unfold groupsAppend
  cases h : assocFind? m k with
  | some l => rw [assocFind?_assocSet_self]; simp
  | none =>
    rw [assocFind?_append, h]
    simp [assocFind?]

theorem groupsAppend_ne (m : List (String × List APNObject)) (k k' : String)
    (o : APNObject) (h : k' ≠ k) :
    assocFind? (groupsAppend m k o) k' = assocFind? m k' := by
  unfold groupsAppend
  cases hm : assocFind? m k with
  | some l => exact assocFind?_assocSet_ne m k k' _ h
  | none =>
    rw [assocFind?_append]
    simp [assocFind?, Ne.symm h]

theorem bestUpdate_self (m : List (String × APNObjectRoot)) (k : String)
    (r : APNObjectRoot) :
    assocFind? (bestUpdate m k r) k = bestStep (assocFind? m k) r := by
  unfold bestUpdate bestStep
  cases hm : assocFind? m k with
  | none =>
    rw [assocFind?_append, hm]
    simp [assocFind?]
  | some br =>
    by_cases hlen : goLen br.carrier < goLen r.carrier
    · simp [hlen, assocFind?_assocSet_self]
    · simp [hlen, hm]

theorem bestUpdate_ne (m : List (String × APNObjectRoot)) (k k' : String)
    (r : APNObjectRoot) (h : k' ≠ k) :
    assocFind? (bestUpdate m k r) k' = assocFind? m k' := by
  unfold bestUpdate
  cases hm : assocFind? m k with
  | none =>
    rw [assocFind?_append]
    simp [assocFind?, Ne.symm h]
  | some br =>
    by_cases hlen : goLen br.carrier < goLen r.carrier
    · simp [hlen, assocFind?_assocSet_ne m k k' r h]
    · simp [hlen]

theorem mergeStep_invalid (st : MergeState) (o : APNObject)
    (h : rootValidate o.root = false) : mergeStep st o = st := by
  unfold mergeStep
  cases ho : o.root with
  | none => rfl
  | some r =>
    have h' : (r.mcc.isSome && r.mnc.isSome) = false := by
      unfold rootValidate at h
      rw [ho] at h
      exact h
    simp [h']

theorem mergeStep_valid (st : MergeState) (o : APNObject) (r : APNObjectRoot)
    (ho : o.root = some r) (hv : (r.mcc.isSome && r.mnc.isSome) = true) :
    mergeStep st o =
      ⟨groupsAppend st.groups (rootGetID r) o, bestUpdate st.best (rootGetID r) r⟩ := by
  unfold mergeStep
  rw [ho]
  simp [hv]

theorem validObjKey_none {o : APNObject} (ho : o.root = none) (k : String) :
    validObjKey o k = false := by
  unfold validObjKey
  rw [ho]

theorem validObjKey_invalid {o : APNObject} {r : APNObjectRoot}
    (ho : o.root = some r) (hv : (r.mcc.isSome && r.mnc.isSome) = false)
    (k : String) : validObjKey o k = false := by
  unfold validObjKey
  rw [ho]
  simp [hv]

theorem validObjKey_valid {o : APNObject} {r : APNObjectRoot}
    (ho : o.root = some r) (hv : (r.mcc.isSome && r.mnc.isSome) = true)
    (k : String) : validObjKey o k = (rootGetID r == k) := by
  unfold validObjKey
  rw [ho]
  simp [hv]

theorem keyMembers_nil (k : String) : keyMembers [] k = [] := rfl

theorem keyMembers_cons (o : APNObject) (rest : List APNObject) (k : String) :
    keyMembers (o :: rest) k =
      if validObjKey o k then o :: keyMembers rest k else keyMembers rest k := by
  simp [keyMembers, List.filter_cons]

theorem keyRoots_cons_skip {o : APNObject} (rest : List APNObject) (k : String)
    (h : validObjKey o k = false) :
    keyRoots (o :: rest) k = keyRoots rest k := by
  unfold keyRoots
  rw [keyMembers_cons, h]
  simp

theorem keyRoots_cons_take {o : APNObject} {r : APNObjectRoot}
    (rest : List APNObject) (k : String) (h : validObjKey o k = true)
    (ho : o.root = some r) :
    keyRoots (o :: rest) k = r :: keyRoots rest k := by
  unfold keyRoots
  rw [keyMembers_cons, h]
  simp only [if_true, List.filterMap_cons, ho]

theorem mergeFold_best (inputs : List APNObject) :
    ∀ (st : MergeState) (k : String),
      assocFind? (inputs.foldl mergeStep st).best k =
        (keyRoots inputs k).foldl bestStep (assocFind? st.best k) := by
  induction inputs with
  | nil => intro st k; simp [keyRoots, keyMembers]
  | cons o rest ih =>
    intro st k
    rw [List.foldl_cons]
    cases ho : o.root with
    | none =>
      rw [mergeStep_invalid st o (by unfold rootValidate; rw [ho]),
        keyRoots_cons_skip rest k (validObjKey_none ho k)]
      exact ih st k
    | some r =>
      cases hv : (r.mcc.isSome && r.mnc.isSome) with
      | false =>
        rw [mergeStep_invalid st o (by unfold rootValidate; rw [ho]; exact hv),
          keyRoots_cons_skip rest k (validObjKey_invalid ho hv k)]
        exact ih st k
      | true =>
        rw [mergeStep_valid st o r ho hv]
        by_cases hk : rootGetID r = k
        · subst hk
          rw [keyRoots_cons_take rest _ (by rw [validObjKey_valid ho hv]; simp) ho]
          rw [ih]
          rw [List.foldl_cons, bestUpdate_self]
        · rw [keyRoots_cons_skip rest k
            (by rw [validObjKey_valid ho hv]; simp [hk])]
          rw [ih]
          rw [bestUpdate_ne st.best (rootGetID r) k r (Ne.symm hk)]

theorem mergeFold_groups (inputs : List APNObject) :
    ∀ (st : MergeState) (k : String),
      (assocFind? (inputs.foldl mergeStep st).groups k).getD [] =
        (assocFind? st.groups k).getD [] ++ keyMembers inputs k := by
  induction inputs with
  | nil => intro st k; simp [keyMembers]
  | cons o rest ih =>
    intro st k
    rw [List.foldl_cons, keyMembers_cons]
    cases ho : o.root with
    | none =>
      rw [mergeStep_invalid st o (by unfold rootValidate; rw [ho]),
        validObjKey_none ho k]
      simp [ih st k]
    | some r =>
      cases hv : (r.mcc.isSome && r.mnc.isSome) with
      | false =>
        rw [mergeStep_invalid st o (by unfold rootValidate; rw [ho]; exact hv),
          validObjKey_invalid ho hv k]
        simp [ih st k]
      | true =>
        rw [mergeStep_valid st o r ho hv, validObjKey_valid ho hv k]
        by_cases hk : rootGetID r = k
        · subst hk
          rw [if_pos (by simp)]
          rw [ih]
          show (assocFind? (groupsAppend st.groups (rootGetID r) o) (rootGetID r)).getD [] ++ _ = _
          rw [groupsAppend_self]
          simp [List.append_assoc]
        · rw [if_neg (by simp [hk])]
          rw [ih]
          rw [groupsAppend_ne st.groups (rootGetID r) k o (Ne.symm hk)]

theorem mergeFold_groups_isSome (inputs : List APNObject) :
    ∀ (st : MergeState) (k : String),
      (assocFind? (inputs.foldl mergeStep st).groups k).isSome =
        ((assocFind? st.groups k).isSome || !(keyMembers inputs k).isEmpty) := by
  induction inputs with
  | nil => intro st k; simp [keyMembers]
  | cons o rest ih =>
    intro st k
    rw [List.foldl_cons, keyMembers_cons]
    cases ho : o.root with
    | none =>
      rw [mergeStep_invalid st o (by unfold rootValidate; rw [ho]),
        validObjKey_none ho k]
      simp [ih st k]
    | some r =>
      cases hv : (r.mcc.isSome && r.mnc.isSome) with
      | false =>
        rw [mergeStep_invalid st o (by unfold rootValidate; rw [ho]; exact hv),
          validObjKey_invalid ho hv k]
        simp [ih st k]
      | true =>
        rw [mergeStep_valid st o r ho hv, validObjKey_valid ho hv k]
        by_cases hk : rootGetID r = k
        · subst hk
          rw [if_pos (by simp)]
          rw [ih]
          have hg := groupsAppend_self st.groups (rootGetID r) o
          simp [hg]
        · rw [if_neg (by simp [hk])]
          rw [ih]
          rw [groupsAppend_ne st.groups (rootGetID r) k o (Ne.symm hk)]

theorem groupsAppend_keys_nodup (m : List (String × List APNObject))
    (k : String) (o : APNObject) (h : (m.map Prod.fst).Nodup) :
    ((groupsAppend m k o).map Prod.fst).Nodup := by
  unfold groupsAppend
  cases hm : assocFind? m k with
  | some l =>
    rw [assocSet_keys m k _ (by rw [hm]; rfl)]
    exact h
  | none =>
    rw [List.map_append]
    simp only [List.map_cons, List.map_nil]
    rw [List.nodup_append]
    refine ⟨h, List.nodup_singleton k, ?_⟩
    intro a ha hb
    rw [List.mem_singleton] at hb
    subst hb
    exact (assocFind?_eq_none_iff m a).mp hm ha

theorem mergeFold_keys_nodup (inputs : List APNObject) :
    ∀ st : MergeState, ((st.groups.map Prod.fst).Nodup) →
      (((inputs.foldl mergeStep st).groups.map Prod.fst).Nodup) := by
  induction inputs with
  | nil => intro st h; exact h
  | cons o rest ih =>
    intro st h
    rw [List.foldl_cons]
    cases ho : o.root with
    | none =>
      rw [mergeStep_invalid st o (by unfold rootValidate; rw [ho])]
      exact ih st h
    | some r =>
      cases hv : (r.mcc.isSome && r.mnc.isSome) with
      | false =>
        rw [mergeStep_invalid st o (by unfold rootValidate; rw [ho]; exact hv)]
        exact ih st h
      | true =>
        rw [mergeStep_valid st o r ho hv]
        exact ih _ (groupsAppend_keys_nodup st.groups (rootGetID r) o h)

theorem foldl_bestStep_mem : ∀ (rs : List APNObjectRoot) (b : APNObjectRoot),
    ∃ c, rs.foldl bestStep (some b) = some c ∧ c ∈ b :: rs
  | [], b => ⟨b, rfl, by simp⟩
  | r :: rs, b => by
    rw [List.foldl_cons]
    have hstep : bestStep (some b) r =
        some (if goLen b.carrier < goLen r.carrier then r else b) := by
      by_cases hl : goLen b.carrier < goLen r.carrier <;> simp [bestStep, hl]
    rw [hstep]
    obtain ⟨c, hc, hmem⟩ := foldl_bestStep_mem rs _
    refine ⟨c, hc, ?_⟩
    rcases List.mem_cons.mp hmem with rfl | h
    · by_cases hl : goLen b.carrier < goLen r.carrier
      · simp [hl]
      · simp [hl]
    · simp [List.mem_cons, h]

theorem chooseBest_of_ne_nil (rs : List APNObjectRoot) (h : rs ≠ []) :
    ∃ b, chooseBest rs = some b ∧ b ∈ rs := by
  cases rs with
  | nil => exact absurd rfl h
  | cons r rs =>
    unfold chooseBest
    rw [List.foldl_cons]
    exact foldl_bestStep_mem rs r

theorem keyMembers_mem {inputs : List APNObject} {k : String} {o : APNObject}
    (h : o ∈ keyMembers inputs k) : validObjKey o k = true :=
  (List.mem_filter.mp h).2

theorem keyRoots_mem {inputs : List APNObject} {k : String} {r : APNObjectRoot}
    (h : r ∈ keyRoots inputs k) :
    r.mcc.isSome = true ∧ r.mnc.isSome = true ∧ rootGetID r = k := by
  unfold keyRoots at h
  obtain ⟨o, ho, hr⟩ := List.mem_filterMap.mp h
  have hv := keyMembers_mem ho
  unfold validObjKey at hv
  rw [hr] at hv
  simp only [Bool.and_eq_true, beq_iff_eq] at hv
  exact ⟨hv.1.1, hv.1.2, hv.2⟩

theorem keyRoots_ne_nil {inputs : List APNObject} {k : String}
    (h : keyMembers inputs k ≠ []) : keyRoots inputs k ≠ [] := by
  obtain ⟨o, ho⟩ := List.exists_mem_of_ne_nil _ h
  have hv := keyMembers_mem ho
  unfold validObjKey at hv
  cases hr : o.root with
  | none =>
    rw [hr] at hv
    cases hv
  | some r =>
    intro hnil
    have : r ∈ keyRoots inputs k :=
      List.mem_filterMap.mpr ⟨o, ho, by rw [hr]⟩
    rw [hnil] at this
    cases this

theorem buildRep_root (mem : List APNObject) (b : APNObjectRoot)
    (hv1 : b.mcc.isSome = true) (hv2 : b.mnc.isSome = true) :
    (buildRep mem b).root = some { b with carrier := rootGetCarrier b } := by
  unfold buildRep rootClone
  rw [if_pos (by unfold rootValidate; simp [hv1, hv2])]
  rfl

theorem buildRep_groupMap (mem : List APNObject) (b : APNObjectRoot) :
    (buildRep mem b).groupMapByType = some (mem.foldl groupMapUpdate []) :=
  rfl

theorem rootGetID_carrier_update (b : APNObjectRoot) (c : String) :
    rootGetID { b with carrier := c } = rootGetID b :=
  rfl

/-- Central characterization of a merged representative: its identity is
the clone of the best (longest-carrier, first-on-ties) member root with
the display-cleaned carrier substituted, and its group map is the
capability-type fold over the key's members. -/
theorem merge_rep_char (inputs : List APNObject) (rep : APNObject)
    (hrep : rep ∈ unmarshalMergeAPNArray inputs) :
    ∃ b : APNObjectRoot,
      chooseBest (keyRoots inputs (objGetID rep)) = some b ∧
      b.mcc.isSome = true ∧ b.mnc.isSome = true ∧
      rep.root = some { b with carrier := rootGetCarrier b } ∧
      rep.groupMapByType =
        some ((keyMembers inputs (objGetID rep)).foldl groupMapUpdate []) := by
  unfold unmarshalMergeAPNArray at hrep
  rw [(List.perm_insertionSort apnSortLE _).mem_iff] at hrep
  obtain ⟨p, hp, hbuild⟩ := List.mem_map.mp hrep
  have hnodup : (((inputs.foldl mergeStep ⟨[], []⟩).groups).map Prod.fst).Nodup :=
    mergeFold_keys_nodup inputs ⟨[], []⟩ (by simp)
  have hlook : assocFind? (inputs.foldl mergeStep ⟨[], []⟩).groups p.1 = some p.2 :=
    assocFind?_of_mem_nodup _ hnodup p hp
  have hmem_eq : p.2 = keyMembers inputs p.1 := by
    have hgr := mergeFold_groups inputs ⟨[], []⟩ p.1
    rw [hlook] at hgr
    simpa [assocFind?] using hgr
  have hne : keyMembers inputs p.1 ≠ [] := by
    intro hnil
    have hgr := mergeFold_groups_isSome inputs ⟨[], []⟩ p.1
    rw [hlook, hnil] at hgr
    simp [assocFind?] at hgr
  have hbest : assocFind? (inputs.foldl mergeStep ⟨[], []⟩).best p.1 =
      chooseBest (keyRoots inputs p.1) := by
    have hb := mergeFold_best inputs ⟨[], []⟩ p.1
    simpa [assocFind?, chooseBest] using hb
  obtain ⟨b, hb, hbmem⟩ := chooseBest_of_ne_nil _ (keyRoots_ne_nil hne)
  obtain ⟨hbm, hbn, hbk⟩ := keyRoots_mem hbmem
  have hrepr : rep = buildRep (keyMembers inputs p.1) b := by
    rw [← hbuild, hmem_eq, hbest, hb]
    rfl
  have hroot : rep.root = some { b with carrier := rootGetCarrier b } := by
    rw [hrepr]
    exact buildRep_root _ b hbm hbn
  have hid : objGetID rep = p.1 := by
    unfold objGetID
    rw [hroot]
    show rootGetID { b with carrier := rootGetCarrier b } = p.1
    rw [rootGetID_carrier_update]
    exact hbk
  rw [hid]
  refine ⟨b, hb, hbm, hbn, hroot, ?_⟩
  rw [hrepr]
  exact buildRep_groupMap _ b

/-- C2: for every group of valid input records sharing one identity key,
the representative's identity comes from the member whose raw
carrier-name string is the longest (byte length, ties keep the first
seen), and the representative's carrier string is the display-cleaned
form of that chosen carrier name. -/
theorem merge_best_identity (inputs : List APNObject) (rep : APNObject)
    (hrep : rep ∈ unmarshalMergeAPNArray inputs) :
    ∃ best : APNObjectRoot,
      chooseBest (keyRoots inputs (objGetID rep)) = some best ∧
      rep.root = some { best with carrier := rootGetCarrier best } := by
  obtain ⟨b, hb, -, -, hroot, -⟩ := merge_rep_char inputs rep hrep
  exact ⟨b, hb, hroot⟩

/-- C4: records lacking MCC or MNC are discarded (removing them from the
input does not change the output at all), and every representative in the
output carries both MCC and MNC. -/
theorem merge_validity_gate (inputs : List APNObject) :
    unmarshalMergeAPNArray inputs =
      unmarshalMergeAPNArray (inputs.filter (fun o => rootValidate o.root)) ∧
    ∀ rep ∈ unmarshalMergeAPNArray inputs,
      ∃ r, rep.root = some r ∧ r.mcc.isSome = true ∧ r.mnc.isSome = true := by
  constructor
  · have hfold : ∀ (l : List APNObject) (st : MergeState),
        (l.filter (fun o => rootValidate o.root)).foldl mergeStep st =
          l.foldl mergeStep st := by
      intro l
      induction l with
      | nil => intro st; rfl
      | cons o rest ih =>
        intro st
        rw [List.filter_cons]
        by_cases h : rootValidate o.root = true
        · rw [if_pos (by simp [h])]
          rw [List.foldl_cons, List.foldl_cons, ih]
        · rw [if_neg (by simp [h])]
          rw [List.foldl_cons, mergeStep_invalid st o (Bool.eq_false_iff.mpr h), ih]
    unfold unmarshalMergeAPNArray
    rw [hfold]
  · intro rep hrep
    obtain ⟨b, -, hbm, hbn, hroot, -⟩ := merge_rep_char inputs rep hrep
    exact ⟨{ b with carrier := rootGetCarrier b }, hroot, hbm, hbn⟩

/-! ### C10: last-write-wins in the capability-type map -/

/-- The value a member contributes to the representative's map under key
`t`: defined only when the member has a Base group with a type whose
formatted name is `t`; the stored record is the member with its root
cleared. -/
def groupSelect (t : String) (o : APNObject) : Option APNFlat :=
  match o.base with
  | none => none
  | some b =>
    match b.type with
    | none => none
    | some ty =>
      if baseTypeKey ty = t then some { o.toAPNFlat with root := none } else none

theorem getLast?_cons_or {α : Type} : ∀ (l : List α) (v : α),
    (v :: l).getLast? = (l.getLast?).or (some v)
  | [], _ => rfl
  | x :: xs, v => by
    show (x :: xs).getLast? = ((x :: xs).getLast?).or (some v)
    rw [getLast?_cons_or xs x]
    cases xs.getLast? with
    | some a => rfl
    | none => rfl

theorem groupMapUpdate_foldl (mem : List APNObject) :
    ∀ (gm0 : List (String × APNFlat)) (t : String),
      assocFind? (mem.foldl groupMapUpdate gm0) t =
        ((mem.filterMap (groupSelect t)).getLast?).or (assocFind? gm0 t) := by
  induction mem with
  | nil => intro gm0 t; simp
  | cons o mem ih =>
    intro gm0 t
    rw [List.foldl_cons, List.filterMap_cons, ih]
    cases hb : o.base with
    | none => simp [groupMapUpdate, groupSelect, hb]
    | some b =>
      cases hty : b.type with
      | none => simp [groupMapUpdate, groupSelect, hb, hty]
      | some ty =>
        by_cases hk : baseTypeKey ty = t
        · subst hk
          have hupd : groupMapUpdate gm0 o =
              assocSet gm0 (baseTypeKey ty) { o.toAPNFlat with root := none } := by
            simp [groupMapUpdate, hb, hty]
          have hsel : groupSelect (baseTypeKey ty) o =
              some { o.toAPNFlat with root := none } := by
            simp [groupSelect, hb, hty]
          rw [hupd, hsel, assocFind?_assocSet_self, getLast?_cons_or]
          cases (mem.filterMap (groupSelect (baseTypeKey ty))).getLast? with
          | some a => rfl
          | none => rfl
        · have hupd : groupMapUpdate gm0 o =
              assocSet gm0 (baseTypeKey ty) { o.toAPNFlat with root := none } := by
            simp [groupMapUpdate, hb, hty]
          have hsel : groupSelect t o = none := by
            simp [groupSelect, hb, hty, hk]
          rw [hupd, hsel, assocFind?_assocSet_ne _ _ _ _ (Ne.symm hk)]

/-- C10: when two or more valid inputs share the same identity key and the
same Base capability-type name, only the last such record in input order
is kept in the representative's map: the map's entry at each type name is
the last matching member (root cleared), and earlier ones are
discarded. -/
theorem merge_groupMap_last_wins (inputs : List APNObject) (rep : APNObject)
    (hrep : rep ∈ unmarshalMergeAPNArray inputs) :
    ∃ gm, rep.groupMapByType = some gm ∧
      ∀ t : String, assocFind? gm t =
        ((keyMembers inputs (objGetID rep)).filterMap (groupSelect t)).getLast? := by
  obtain ⟨b, -, -, -, -, hgm⟩ := merge_rep_char inputs rep hrep
  refine ⟨_, hgm, fun t => ?_⟩
  rw [groupMapUpdate_foldl]
  simp [assocFind?]

/-! ### Concrete witness data for the merge-engine claims -/

/-- Witness inputs: two valid records sharing the key `PLMN:20801;` (the
second has the longer carrier string and repeats the `default` capability
type of the first) and one invalid record lacking MCC. -/
def wMergeInputs : List APNObject :=
  [{ root := some ⟨"Orange", none, some 208, some 1⟩,
     base := some ⟨some "orange.fr", some 1, none⟩,
     auth := none, bearer := none, proxy := none, mms := none,
     mvno := none, limit := none, other := none, groupMapByType := none },
   { root := some ⟨"Orange-4G", none, some 208, some 1⟩,
     base := some ⟨some "orange.mms", some 1, none⟩,
     auth := none, bearer := none, proxy := none, mms := none,
     mvno := none, limit := none, other := none, groupMapByType := none },
   { root := some ⟨"Bad", none, none, some 1⟩,
     base := some ⟨some "bad.apn", some 1, none⟩,
     auth := none, bearer := none, proxy := none, mms := none,
     mvno := none, limit := none, other := none, groupMapByType := none }]

/-- The (single) representative the witness inputs merge into. -/
def wMergeRep : APNObject :=
  (unmarshalMergeAPNArray wMergeInputs).headI

/-- Witness for C2 at the concrete inputs. -/
theorem merge_best_identity_witness :
    ∃ best : APNObjectRoot,
      chooseBest (keyRoots wMergeInputs (objGetID wMergeRep)) = some best ∧
      wMergeRep.root = some { best with carrier := rootGetCarrier best } :=
  merge_best_identity wMergeInputs wMergeRep (by decide)

/-- Witness for C4 at the concrete inputs. -/
theorem merge_validity_gate_witness :
    ∃ r, wMergeRep.root = some r ∧ r.mcc.isSome = true ∧ r.mnc.isSome = true :=
  (merge_validity_gate wMergeInputs).2 wMergeRep (by decide)

/-- Witness for C10 at the concrete inputs (two members share the
`default` capability type; the map keeps the later one). -/
theorem merge_groupMap_last_wins_witness :
    ∃ gm, wMergeRep.groupMapByType = some gm ∧
      ∀ t : String, assocFind? gm t =
        ((keyMembers wMergeInputs (objGetID wMergeRep)).filterMap (groupSelect t)).getLast? :=
  merge_groupMap_last_wins wMergeInputs wMergeRep (by decide)

/-! ## C5: encoding a representative to flat elements -/

/-- C5: a representative with a non-nil `variantsByType` map emits one
flat element per map entry, in ascending lexicographic order of the
capability-type-name keys, each element carrying the representative's
(cloned) identity together with that entry's own field groups; a
representative with a nil map emits exactly one flat element carrying its
own identity and groups directly. -/
theorem marshal_groupMap_emission (o : APNObject) (m : List (String × APNFlat)) :
    (o.groupMapByType = none →
      emitAPNObject o = [(o.clone).toAPNFlat] ∧ (emitAPNObject o).length = 1) ∧
    (o.groupMapByType = some m →
      ∃ ks : List String,
        ks.Perm (m.map Prod.fst) ∧
        List.Sorted keyLE ks ∧
        emitAPNObject o = ks.map (fun k =>
          { ((assocFind? (m.map (fun p => (p.1, flatClone p.2))) k).getD emptyAPNFlat) with
            root := rootClone o.root }) ∧
        (emitAPNObject o).length = m.length) := by
  constructor
  · intro h
    have hc : (o.clone).groupMapByType = none := by
      show o.groupMapByType.map _ = none
      rw [h]
      rfl
    refine ⟨?_, ?_⟩ <;> simp [emitAPNObject, hc]
  · intro h
    have hcm : (o.clone).groupMapByType =
        some (m.map (fun p => (p.1, flatClone p.2))) := by
      show o.groupMapByType.map _ = _
      rw [h]
      rfl
    have hkeys : (m.map (fun p => (p.1, flatClone p.2))).map Prod.fst =
        m.map Prod.fst := by
      rw [List.map_map]
      rfl
    refine ⟨List.insertionSort keyLE
      ((m.map (fun p => (p.1, flatClone p.2))).map Prod.fst), ?_, ?_, ?_, ?_⟩
    · exact hkeys ▸ List.perm_insertionSort keyLE _
    · exact List.sorted_insertionSort keyLE _
    · simp only [emitAPNObject, hcm]
      rfl
    · have hlen := (List.perm_insertionSort keyLE
        ((m.map (fun p => (p.1, flatClone p.2))).map Prod.fst)).length_eq
      simp only [emitAPNObject, hcm, List.length_map]
      simp only [List.length_map] at hlen
      rw [hlen]

/-- The two capability entries of the C5 witness representative. -/
def wFlatMms : APNFlat :=
  { emptyAPNFlat with base := some ⟨some "orange.mms", some 2, none⟩ }

/-- The second capability entry of the C5 witness representative. -/
def wFlatDefault : APNFlat :=
  { emptyAPNFlat with base := some ⟨some "orange.fr", some 1, none⟩ }

/-- The C5 witness representative: identity plus a two-entry map whose
keys are deliberately not in ascending order. -/
def wMarshalObj : APNObject :=
  { root := some ⟨"Orange", none, some 208, some 1⟩,
    base := none, auth := none, bearer := none, proxy := none, mms := none,
    mvno := none, limit := none, other := none,
    groupMapByType := some [("mms", wFlatMms), ("default", wFlatDefault)] }

/-- Witness for C5 at the concrete representative. -/
theorem marshal_groupMap_emission_witness :
    ∃ ks : List String,
      ks.Perm ([("mms", wFlatMms), ("default", wFlatDefault)].map Prod.fst) ∧
      List.Sorted keyLE ks ∧
      emitAPNObject wMarshalObj = ks.map (fun k =>
        { ((assocFind? ([("mms", wFlatMms), ("default", wFlatDefault)].map
              (fun p => (p.1, flatClone p.2))) k).getD emptyAPNFlat) with
          root := rootClone wMarshalObj.root }) ∧
      (emitAPNObject wMarshalObj).length =
        ([("mms", wFlatMms), ("default", wFlatDefault)] : List (String × APNFlat)).length :=
  (marshal_groupMap_emission wMarshalObj
    [("mms", wFlatMms), ("default", wFlatDefault)]).2 rfl

/-! ## C8: decode-error behaviour of the codecs -/

/-- C8 counterexample: the proxy auth codec of the later iteration does
not decode the empty input string to `noneValue` — it fails with an
invalid-number error. -/
theorem proxy_empty_decode_fails :
    apnTypeAuthTypeStorage.unmarshalXMLValue 0 "" =
      Except.error (APNDecodeError.invalidNumber "") ∧
    apnTypeAuthTypeStorage.unmarshalXMLValue 0 "" ≠
      Except.ok apnTypeAuthTypeStorage.xmlMap.noneIndex := by
  exact ⟨by decide, by decide⟩

theorem setStringArrayAux_err (c : APNTypeCoreBitmask) :
    ∀ (names : List String) (acc : Nat),
      (∃ t ∈ names, assocFind? c.mapByString (goNormalize t) = none) →
      ∃ t', c.setStringArrayAux names acc = .error (.unknownName t')
  | [], _, h => by
    obtain ⟨t, ht, -⟩ := h
    cases ht
  | s :: rest, acc, h => by
    cases hfind : assocFind? c.mapByString (goNormalize s) with
    | none =>
      exact ⟨goNormalize s, by simp [APNTypeCoreBitmask.setStringArrayAux, hfind]⟩
    | some i =>
      obtain ⟨t, ht, hfail⟩ := h
      rcases List.mem_cons.mp ht with rfl | hmem
      · rw [hfind] at hfail
        cases hfail
      · have := setStringArrayAux_err c rest (acc ||| i) ⟨t, hmem, hfail⟩
        obtain ⟨t', ht'⟩ := this
        exact ⟨t', by simp [APNTypeCoreBitmask.setStringArrayAux, hfind, ht']⟩

/-- C8 (amended): for the `apntype.go` codecs (both the bitmask and the
enum shape), numeric XML decoding of a value outside
`[noneValue, maxValue)` fails with an out-of-range error (and a numeral
beyond the 64-bit int range fails with the invalid-number parse error),
string-mode decoding of input containing an unrecognized name fails with
an unknown-flag-name error, and the empty input string decodes to
`noneValue` without error; the proxy codecs of the later iteration
equally reject out-of-range numerics in index-number mode, but all four
configured proxy storages reject the empty input string instead of
decoding it to `noneValue`. -/
theorem decode_error_amended :
    (∀ (c : APNTypeCoreBitmask) (s : String) (n : Int),
      c.option.xmlUseNumber = true → s ≠ "" → atoi s = some n →
      (n < (c.indexNone : Int) ∨ (c.indexMax : Int) ≤ n) →
      c.unmarshalXMLValue s = .error (.outOfRange n)) ∧
    (∀ (c : APNTypeCoreBitmask) (s : String),
      c.option.xmlUseNumber = true → s ≠ "" → atoi s = none →
      c.unmarshalXMLValue s = .error (.invalidNumber s)) ∧
    (∀ (c : APNTypeCoreEnum) (s : String) (n : Int),
      c.option.xmlUseNumber = true → s ≠ "" → atoi s = some n →
      (n < (c.indexNone : Int) ∨ (c.indexMax : Int) ≤ n) →
      c.unmarshalXMLValue s = .error (.outOfRange n)) ∧
    (∀ (c : APNTypeCoreBitmask) (s : String),
      c.option.xmlUseNumber = false → s ≠ "" →
      (∃ t ∈ goSplit s c.option.xmlSeparator,
        assocFind? c.mapByString (goNormalize t) = none) →
      ∃ t', c.unmarshalXMLValue s = .error (.unknownName t')) ∧
    (∀ (c : APNTypeCoreEnum) (s : String),
      c.option.xmlUseNumber = false → s ≠ "" →
      assocFind? c.mapByString (goNormalize s) = none →
      c.unmarshalXMLValue s = .error (.unknownName (goNormalize s))) ∧
    (∀ c : APNTypeCoreBitmask, c.unmarshalXMLValue "" = .ok c.indexNone) ∧
    (∀ c : APNTypeCoreEnum, c.unmarshalXMLValue "" = .ok c.indexNone) ∧
    (∀ (p : APNTypeCoreProxy) (v0 : Nat) (s : String) (n : Int),
      p.option.xmlIsArray = false → p.option.xmlIsString = false →
      p.option.xmlIsNumber = true → p.option.xmlNumberIsOrder = false →
      p.option.xmlNumberIsIndex = true → atoi s = some n →
      (n < (p.xmlMap.noneIndex : Int) ∨ (p.xmlMap.maxIndex : Int) ≤ n) →
      p.unmarshalXMLValue v0 s = .error (.outOfRange n)) ∧
    (apnTypeAuthTypeStorage.unmarshalXMLValue 0 "" =
      .error (.invalidNumber "")) ∧
    (apnTypeNetworkTypeStorage.unmarshalXMLValue 0 "" =
      .error (.unknownName "")) ∧
    (apnTypeBaseTypeStorage.unmarshalXMLValue 0 "" =
      .error (.unknownName "")) ∧
    (apnTypeBearerProtocolStorage.unmarshalXMLValue 0 "" =
      .error (.unknownName "")) := by
  refine ⟨?_, ?_, ?_, ?_, ?_, ?_, ?_, ?_,
    by decide, by decide, by decide, by decide⟩
  · intro c s n hnum hs hatoi hrange
    unfold APNTypeCoreBitmask.unmarshalXMLValue
    rw [if_neg hs]
    rw [if_pos (by rw [hnum])]
    simp only [hatoi]
    rcases hrange with h | h
    · rw [if_pos (by simp [h])]
    · rw [if_pos (by simp [h])]
  · intro c s hnum hs hatoi
    unfold APNTypeCoreBitmask.unmarshalXMLValue
    rw [if_neg hs]
    rw [if_pos (by rw [hnum])]
    simp only [hatoi]
  · intro c s n hnum hs hatoi hrange
    unfold APNTypeCoreEnum.unmarshalXMLValue
    rw [if_neg hs]
    rw [if_pos (by rw [hnum])]
    simp only [hatoi]
    rcases hrange with h | h
    · rw [if_pos (by simp [h])]
    · rw [if_pos (by simp [h])]
  · intro c s hnum hs hex
    unfold APNTypeCoreBitmask.unmarshalXMLValue
    rw [if_neg hs]
    rw [if_neg (by rw [hnum]; exact Bool.false_ne_true)]
    exact setStringArrayAux_err c _ _ hex
  · intro c s hnum hs hfail
    unfold APNTypeCoreEnum.unmarshalXMLValue
    rw [if_neg hs]
    rw [if_neg (by rw [hnum]; exact Bool.false_ne_true)]
    simp only [APNTypeCoreEnum.setString, hfail]
  · intro c
    unfold APNTypeCoreBitmask.unmarshalXMLValue
    rw [if_pos rfl]
  · intro c
    unfold APNTypeCoreEnum.unmarshalXMLValue
    rw [if_pos rfl]
  · intro p v0 s n h1 h2 h3 h4 h5 hatoi hrange
    unfold APNTypeCoreProxy.unmarshalXMLValue
    rw [if_neg (by rw [h1]; exact Bool.false_ne_true)]
    rw [if_neg (by rw [h2]; exact Bool.false_ne_true)]
    rw [if_pos (by rw [h3])]
    rw [if_neg (by rw [h4]; exact Bool.false_ne_true)]
    rw [if_pos (by rw [h5])]
    simp only [hatoi]
    rcases hrange with h | h
    · rw [if_pos (by simp [h])]
    · rw [if_pos (by simp [h])]

/-- Witness for C8 (amended) at the concrete codecs: the numeric auth
bitmask codec rejects `"9"` as out of range and a 26-digit numeral as an
invalid number; a numeric enum codec instance rejects `"9"` as out of
range; the string-mode base bitmask codec and the bearer enum codec
reject an unknown name; both `apntype.go` codec shapes accept the empty
string as `noneValue`; and the index-number proxy auth storage rejects
`"9"` as out of range. -/
theorem decode_error_amended_witness :
    apnTypeAuthTypeConfig.unmarshalXMLValue "9" =
      .error (.outOfRange 9) ∧
    apnTypeAuthTypeConfig.unmarshalXMLValue "99999999999999999999999999" =
      .error (.invalidNumber "99999999999999999999999999") ∧
    (newAPNTypeCoreEnum 0 1 8 [(0, "none"), (1, "ip")]
        ⟨true, false, ",", ","⟩).unmarshalXMLValue "9" =
      .error (.outOfRange 9) ∧
    (∃ t', apnTypeBaseTypeConfig.unmarshalXMLValue "bogus" =
      .error (.unknownName t')) ∧
    apnTypeBearerProtocolConfig.unmarshalXMLValue "bogus" =
      .error (.unknownName (goNormalize "bogus")) ∧
    apnTypeBaseTypeConfig.unmarshalXMLValue "" =
      .ok apnTypeBaseTypeConfig.indexNone ∧
    apnTypeBearerProtocolConfig.unmarshalXMLValue "" =
      .ok apnTypeBearerProtocolConfig.indexNone ∧
    apnTypeAuthTypeStorage.unmarshalXMLValue 0 "9" =
      .error (.outOfRange 9) :=
  ⟨decode_error_amended.1 apnTypeAuthTypeConfig "9" 9 rfl (by decide)
      (by decide) (Or.inr (by decide)),
   decode_error_amended.2.1 apnTypeAuthTypeConfig
      "99999999999999999999999999" rfl (by decide) (by decide),
   decode_error_amended.2.2.1
      (newAPNTypeCoreEnum 0 1 8 [(0, "none"), (1, "ip")] ⟨true, false, ",", ","⟩)
      "9" 9 rfl (by decide) (by decide) (Or.inr (by decide)),
   decode_error_amended.2.2.2.1 apnTypeBaseTypeConfig "bogus" rfl (by decide)
      ⟨"bogus", by decide, by decide⟩,
   decode_error_amended.2.2.2.2.1 apnTypeBearerProtocolConfig "bogus" rfl
      (by decide) (by decide),
   decode_error_amended.2.2.2.2.2.1 apnTypeBaseTypeConfig,
   decode_error_amended.2.2.2.2.2.2.1 apnTypeBearerProtocolConfig,
   decode_error_amended.2.2.2.2.2.2.2.1 apnTypeAuthTypeStorage 0 "9" 9
      rfl rfl rfl rfl rfl (by decide) (Or.inr (by decide))⟩
